import Mathlib

/-
Verification development for the x86Tester per-instruction test generator
(src/unnamed/part_000).  The decoder metadata (operand lists, flag masks), the
input generators and the sandboxed execution context are external collaborators
of the code under test; they are modelled as parameters of the embedded
functions.  The machine mode is fixed to LONG_64, the only mode the program
uses.  All names follow the source.
-/

namespace X86Tester

/-- Zydis register identifiers, restricted to the register families the claims
exercise.  The relative order of the constructors follows the Zydis enum order
(GPR8, GPR16, GPR32, GPR64, XMM, FLAGS, IP), which is what the flat sets in the
source sort by. -/
inductive Reg where
  | NONE
  | AL | CL | DL | BL | AH | CH | DH | BH
  | AX | CX | DX | BX
  | EAX | ECX | EDX | EBX
  | RAX | RCX | RDX | RBX
  | XMM0 | XMM1
  | FLAGS | EFLAGS | RFLAGS
  | EIP | RIP
deriving DecidableEq, Repr, Fintype

/-- Position of a register inside the Zydis enum; the flat sets and maps of the
source keep their elements sorted by this key. -/
def regIdx : Reg → Nat
  | .NONE => 0
  | .AL => 1 | .CL => 2 | .DL => 3 | .BL => 4
  | .AH => 5 | .CH => 6 | .DH => 7 | .BH => 8
  | .AX => 9 | .CX => 10 | .DX => 11 | .BX => 12
  | .EAX => 13 | .ECX => 14 | .EDX => 15 | .EBX => 16
  | .RAX => 17 | .RCX => 18 | .RDX => 19 | .RBX => 20
  | .XMM0 => 21 | .XMM1 => 22
  | .FLAGS => 23 | .EFLAGS => 24 | .RFLAGS => 25
  | .EIP => 26 | .RIP => 27

/-- Zydis register classes (the ones reachable from our register universe). -/
inductive RegClass where
  | invalid | gpr8 | gpr16 | gpr32 | gpr64 | xmm | flagsClass | ip
deriving DecidableEq, Repr

/-- ZydisRegisterGetClass restricted to our register universe. -/
def regClass : Reg → RegClass
  | .NONE => .invalid
  | .AL | .CL | .DL | .BL | .AH | .CH | .DH | .BH => .gpr8
  | .AX | .CX | .DX | .BX => .gpr16
  | .EAX | .ECX | .EDX | .EBX => .gpr32
  | .RAX | .RCX | .RDX | .RBX => .gpr64
  | .XMM0 | .XMM1 => .xmm
  | .FLAGS | .EFLAGS | .RFLAGS => .flagsClass
  | .EIP | .RIP => .ip

/-- ZydisRegisterGetWidth in LONG_64 mode, in bits. -/
def regWidth : Reg → Nat
  | .NONE => 0
  | .AL | .CL | .DL | .BL | .AH | .CH | .DH | .BH => 8
  | .AX | .CX | .DX | .BX => 16
  | .EAX | .ECX | .EDX | .EBX => 32
  | .RAX | .RCX | .RDX | .RBX => 64
  | .XMM0 | .XMM1 => 128
  | .FLAGS => 16 | .EFLAGS => 32 | .RFLAGS => 64
  | .EIP => 32 | .RIP => 64

/-- ZydisRegisterGetLargestEnclosing in LONG_64 mode, for the register classes
on which getRootReg calls it. -/
def largestEnclosing : Reg → Reg
  | .AL | .AH | .AX | .EAX | .RAX => .RAX
  | .CL | .CH | .CX | .ECX | .RCX => .RCX
  | .DL | .DH | .DX | .EDX | .RDX => .RDX
  | .BL | .BH | .BX | .EBX | .RBX => .RBX
  | .FLAGS | .EFLAGS | .RFLAGS => .RFLAGS
  | .EIP | .RIP => .RIP
  | r => r

/-- isRegFiltered from the source: registers the driver never stages or
targets directly. -/
def isRegFiltered : Reg → Bool
  | .NONE | .EIP | .RIP | .FLAGS | .EFLAGS | .RFLAGS => true
  | _ => false

/-- getRootReg from the source: largest enclosing register for the general
purpose and flags classes, identity otherwise. -/
def getRootReg (reg : Reg) : Reg :=
  match regClass reg with
  | .gpr8 | .gpr16 | .gpr32 | .gpr64 | .flagsClass => largestEnclosing reg
  | _ => reg

/-- getRegOffset from the source: byte offset of the sub-register inside its
root register (1 for the high-byte aliases, 0 otherwise). -/
def getRegOffset : Reg → Nat
  | .AH | .BH | .CH | .DH => 1
  | _ => 0

/-- The remapReg lambda inside getRegsRead: promote high-byte aliases to the
containing 16-bit register. -/
def remapReg : Reg → Reg
  | .AH => .AX
  | .BH => .BX
  | .CH => .CX
  | .DH => .DX
  | r => r

/-- Zydis operand types (ZYDIS_OPERAND_TYPE_*). -/
inductive OperandType where
  | unused | register | memory | pointer | immediate
deriving DecidableEq, Repr

/-- The memory part of a decoded operand (base, index, scale, displacement). -/
structure MemOperand where
  base : Reg := .NONE
  index : Reg := .NONE
  scale : Nat := 0
  dispValue : Int := 0
deriving DecidableEq, Repr

/-- The immediate part of a decoded operand: s is the signed view, u the
unsigned 64-bit view of the same stored value. -/
structure ImmValue where
  s : Int := 0
  u : Nat := 0
deriving DecidableEq, Repr

/-- A decoded operand: type tag plus the union members the source reads, and
the Zydis action bitmask. -/
structure Operand where
  type : OperandType := .unused
  reg : Reg := .NONE
  mem : MemOperand := {}
  imm : ImmValue := {}
  actions : Nat := 0
deriving DecidableEq, Repr

/-- ZYDIS_OPERAND_ACTION_MASK_WRITE = WRITE | CONDWRITE = 0x0A. -/
def actionMaskWrite : Nat := 10

/-- The mnemonics that receive special treatment anywhere in the translated
code; every other mnemonic behaves like `otherMnemonic`. -/
inductive Mnemonic where
  | ADD | SUB | CMP | XOR | AND | TEST | MOV | LEA | FADD | BSWAP | OR | BTR | DIV
  | SETB | SETBE | SETL | SETLE | SETNB | SETNBE | SETNL | SETNLE
  | SETNO | SETNP | SETNS | SETNZ | SETO | SETP | SETS | SETZ
  | otherMnemonic
deriving DecidableEq, Repr

/-- The fields of ZydisDisassembledInstruction that the translated code reads.
The cpu_flags masks are the decoder metadata (modified, set_0, set_1, tested).
The machine mode is LONG_64 throughout. -/
structure Instr where
  mnemonic : Mnemonic := .otherMnemonic
  operandCount : Nat := 0
  operands : List Operand := []
  operandWidth : Nat := 0
  addressWidth : Nat := 0
  flagsModified : Nat := 0
  flagsSet0 : Nat := 0
  flagsSet1 : Nat := 0
  flagsTested : Nat := 0
deriving DecidableEq, Repr

/-- Access to instr.operands with the zero-initialized operand for entries the
decoder did not fill (the C array is value initialized). -/
def Instr.op (instr : Instr) (i : Nat) : Operand :=
  instr.operands.getD i {}

/-- The operand entries the counted loops of the source visit:
operands 0 .. operand_count-1. -/
def Instr.opList (instr : Instr) : List Operand :=
  (List.range instr.operandCount).map instr.op

/-- Insertion into an sfl flat set of registers: keeps the list sorted by
regIdx and without duplicates. -/
def insertSet (r : Reg) : List Reg → List Reg
  | [] => [r]
  | x :: xs =>
    if regIdx r < regIdx x then r :: x :: xs
    else if regIdx r = regIdx x then x :: xs
    else x :: insertSet r xs

/-- Insertion step of the width-descending sort used by sortRegs (a stable
refinement of the std sort call in the source). -/
def insertByWidth (r : Reg) : List Reg → List Reg
  | [] => [r]
  | x :: xs =>
    if regWidth x > regWidth r then x :: insertByWidth r xs
    else r :: x :: xs

/-- sortRegs from the source: order a register set by width descending. -/
def sortRegs : List Reg → List Reg
  | [] => []
  | x :: xs => insertByWidth x (sortRegs xs)

/-- getRegsModified from the source: the register operands whose action mask
includes a write, with the filtered registers removed, sorted by width
descending. -/
def getRegsModified (instr : Instr) : List Reg :=
  let regs := instr.opList.foldl
    (fun acc op =>
      if op.type = OperandType.register ∧ op.actions &&& actionMaskWrite ≠ 0 then
        if isRegFiltered op.reg then acc else insertSet op.reg acc
      else acc) []
  sortRegs regs

/-- One step of the first collection loop of getRegsRead: insert every
register operand (with no filtering), and the memory base and index
registers when present and not filtered. -/
def collectStep1 (acc : List Reg) (op : Operand) : List Reg :=
  match op.type with
  | .register => insertSet op.reg acc
  | .memory =>
    let acc := if op.mem.base ≠ Reg.NONE ∧ ¬ isRegFiltered op.mem.base then
        insertSet op.mem.base acc else acc
    if op.mem.index ≠ Reg.NONE ∧ ¬ isRegFiltered op.mem.index then
        insertSet op.mem.index acc else acc
  | _ => acc

/-- One step of the second collection loop of getRegsRead: re-insert the
GPR8/GPR16 register operands (the upper bits of those destinations stay
unchanged, so they count as read). -/
def collectStep2 (acc : List Reg) (op : Operand) : List Reg :=
  if op.type = OperandType.register ∧
      (regClass op.reg = RegClass.gpr16 ∨ regClass op.reg = RegClass.gpr8) then
    insertSet op.reg acc
  else acc

/-- The register set built by the two collection loops of getRegsRead. -/
def collectRegsRead (instr : Instr) : List Reg :=
  instr.opList.foldl collectStep2 (instr.opList.foldl collectStep1 [])

/-- Lookup in the sfl flat map from root register to chosen alias. -/
def mapFind (key : Reg) : List (Reg × Reg) → Option Reg
  | [] => none
  | (k, v) :: rest => if k = key then some v else mapFind key rest

/-- Replace the value stored under an existing key of the flat map. -/
def mapReplace (key val : Reg) : List (Reg × Reg) → List (Reg × Reg)
  | [] => []
  | (k, v) :: rest =>
    if k = key then (k, val) :: rest else (k, v) :: mapReplace key val rest

/-- Insert a fresh key into the flat map, keeping keys sorted by regIdx. -/
def mapInsert (key val : Reg) : List (Reg × Reg) → List (Reg × Reg)
  | [] => [(key, val)]
  | (k, v) :: rest =>
    if regIdx key < regIdx k then (key, val) :: (k, v) :: rest
    else (k, v) :: mapInsert key val rest

/-- One step of the overlap-resolution fold of getRegsRead: map each root
register to the remapped alias of largest width encountered so far. -/
def regMapStep (m : List (Reg × Reg)) (reg : Reg) : List (Reg × Reg) :=
  match mapFind (getRootReg reg) m with
  | some cur =>
    if regWidth (remapReg reg) > regWidth cur then
      mapReplace (getRootReg reg) (remapReg reg) m
    else m
  | none => mapInsert (getRootReg reg) (remapReg reg) m

/-- The overlap-resolution fold of getRegsRead. -/
def buildRegMap (regs : List Reg) : List (Reg × Reg) :=
  regs.foldl regMapStep []

/-- getRegsRead from the source: collect, resolve overlaps per root register,
sort by width descending. -/
def getRegsRead (instr : Instr) : List Reg :=
  let regMap := buildRegMap (collectRegsRead instr)
  let regs := regMap.foldl (fun acc kv => insertSet kv.2 acc) []
  sortRegs regs

/-- getFlagsModified from the source. -/
def getFlagsModified (instr : Instr) : Nat := instr.flagsModified

/-- getFlagsSet0 from the source. -/
def getFlagsSet0 (instr : Instr) : Nat := instr.flagsSet0

/-- getFlagsSet1 from the source. -/
def getFlagsSet1 (instr : Instr) : Nat := instr.flagsSet1

/-- getFlagsRead from the source. -/
def getFlagsRead (instr : Instr) : Nat := instr.flagsTested

/-- isInputFromImmediate from the source: some operand is an immediate. -/
def isInputFromImmediate (instr : Instr) : Bool :=
  instr.opList.any (fun op => op.type = OperandType.immediate)

/-- ExceptionType from the source. -/
inductive ExceptionType where
  | None | DivideError | IntegerOverflow
deriving DecidableEq, Repr

/-- TestBitInfo from the source: one coverage target.  When exceptionType is
not None the other three fields are ignored. -/
structure TestBitInfo where
  exceptionType : ExceptionType
  reg : Reg
  bitPos : Nat
  expectedBitValue : Nat
deriving DecidableEq, Repr

/-- getExceptions from the source: DIV contributes the two #DE witnesses. -/
def getExceptions (instr : Instr) : List ExceptionType :=
  match instr.mnemonic with
  | .DIV => [.DivideError, .IntegerOverflow]
  | _ => []

/-- ZYDIS_CPUFLAG_CF as a bitmask. -/
def cpuflagCF : Nat := 1
/-- ZYDIS_CPUFLAG_PF as a bitmask. -/
def cpuflagPF : Nat := 4
/-- ZYDIS_CPUFLAG_AF as a bitmask. -/
def cpuflagAF : Nat := 16
/-- ZYDIS_CPUFLAG_ZF as a bitmask. -/
def cpuflagZF : Nat := 64
/-- ZYDIS_CPUFLAG_SF as a bitmask. -/
def cpuflagSF : Nat := 128
/-- ZYDIS_CPUFLAG_TF as a bitmask. -/
def cpuflagTF : Nat := 256
/-- ZYDIS_CPUFLAG_IF as a bitmask. -/
def cpuflagIF : Nat := 512
/-- ZYDIS_CPUFLAG_OF as a bitmask. -/
def cpuflagOF : Nat := 2048

/-- regDestAndSrcSame from generateTestMatrix: operands 0 and 1 are the same
register. -/
def semRegDestSrcSame (instr : Instr) : Bool :=
  (instr.op 0).type = OperandType.register ∧ (instr.op 1).type = OperandType.register
    ∧ (instr.op 0).reg = (instr.op 1).reg

/-- inputIsImmediate from generateTestMatrix: operand 1 is an immediate. -/
def semInputIsImmediate (instr : Instr) : Bool :=
  (instr.op 1).type = OperandType.immediate

/-- rightInputZero from generateTestMatrix: operand 1 is an immediate whose
signed value is 0. -/
def semRightInputZero (instr : Instr) : Bool :=
  (instr.op 1).type = OperandType.immediate ∧ (instr.op 1).imm.s = 0

/-- resultAlwaysZero as set by the mnemonic switch of generateTestMatrix
(before the per-register BSWAP update). -/
def semResultAlwaysZero0 (instr : Instr) : Bool :=
  match instr.mnemonic with
  | .SUB | .CMP | .XOR => semRegDestSrcSame instr
  | .AND | .TEST => semRightInputZero instr
  | .MOV => semRightInputZero instr
  | _ => false

/-- firstBitAlwaysZero from generateTestMatrix: same source and destination
for ADD/FADD, or an LEA of the form base plus base times one with zero
displacement. -/
def semFirstBitAlwaysZero (instr : Instr) : Bool :=
  match instr.mnemonic with
  | .ADD | .FADD => semRegDestSrcSame instr
  | .LEA =>
    (instr.op 1).mem.base ≠ Reg.NONE ∧ (instr.op 1).mem.index = (instr.op 1).mem.base
      ∧ (instr.op 1).mem.dispValue = 0
  | _ => false

/-- numBitsZero from generateTestMatrix: for a scaled-index LEA with no base
and zero displacement, log2 of the scale low bits are always zero. -/
def semNumBitsZero (instr : Instr) : Nat :=
  match instr.mnemonic with
  | .LEA =>
    if (instr.op 1).mem.base = Reg.NONE ∧ (instr.op 1).mem.index ≠ Reg.NONE
        ∧ (instr.op 1).mem.scale > 1 ∧ (instr.op 1).mem.dispValue = 0 then
      Nat.log2 (instr.op 1).mem.scale
    else 0
  | _ => 0

/-- Whether the mnemonic belongs to the SETcc family handled by the maxBits
switch. -/
def isSetcc : Mnemonic → Bool
  | .SETB | .SETBE | .SETL | .SETLE | .SETNB | .SETNBE | .SETNL | .SETNLE
  | .SETO | .SETP | .SETS | .SETZ | .SETNO | .SETNP | .SETNS | .SETNZ => true
  | _ => false

/-- maxBits for one modified register, from the switch inside the register
loop of generateTestMatrix. -/
def regMaxBits (instr : Instr) (regSize : Nat) : Nat :=
  if isSetcc instr.mnemonic then 1
  else match instr.mnemonic with
    | .LEA => instr.addressWidth
    | _ => regSize

/-- The targets emitted for one bit position of one modified register, given
the current resultAlwaysZero value (raz).  Follows the body of the inner bit
loop of generateTestMatrix, including the immediate-aware specializations and
the firstBitAlwaysZero clearing that happens after the expect-0 push. -/
def bitTargetsAt (instr : Instr) (raz : Bool) (regModified : Reg) (bitPos : Nat) :
    List TestBitInfo :=
  let maxBits := regMaxBits instr (regWidth regModified)
  let testZero := true
  let testOne := decide (bitPos ≥ semNumBitsZero instr) && !raz && decide (bitPos < maxBits)
  let imm1 := (instr.op 1).imm.u
  let pair :=
    if instr.mnemonic = Mnemonic.MOV ∧ semInputIsImmediate instr then
      (decide (imm1 &&& (1 <<< bitPos) = 0), decide (imm1 &&& (1 <<< bitPos) ≠ 0))
    else if instr.mnemonic = Mnemonic.OR ∧ semInputIsImmediate instr then
      (decide (imm1 &&& (1 <<< bitPos) = 0), testOne)
    else if instr.mnemonic = Mnemonic.AND ∧ semInputIsImmediate instr then
      (testZero, decide (imm1 &&& (1 <<< bitPos) ≠ 0))
    else if instr.mnemonic = Mnemonic.BTR ∧ semInputIsImmediate instr then
      (testZero, decide (imm1 % instr.operandWidth ≠ bitPos))
    else (testZero, testOne)
  let zeroPart := if pair.1 then [TestBitInfo.mk .None regModified bitPos 0] else []
  let testOne := if bitPos = 0 ∧ semFirstBitAlwaysZero instr then false else pair.2
  zeroPart ++ (if testOne then [TestBitInfo.mk .None regModified bitPos 1] else [])

/-- The targets emitted for all bit positions of one modified register. -/
def bitTargets (instr : Instr) (raz : Bool) (regModified : Reg) : List TestBitInfo :=
  (List.range (regWidth regModified)).flatMap (bitTargetsAt instr raz regModified)

/-- The per-register update of resultAlwaysZero: BSWAP overwrites it with
regSize at most 16 before entering the bit loop, every other mnemonic leaves
it alone. -/
def regRaz (instr : Instr) (raz : Bool) (regModified : Reg) : Bool :=
  if instr.mnemonic = Mnemonic.BSWAP then decide (regWidth regModified ≤ 16) else raz

/-- One step of the register loop of generateTestMatrix.  For BSWAP the loop
mutates resultAlwaysZero before entering the bit loop, and the mutated value
survives into the flag loop; the state threads it. -/
def regStep (instr : Instr) (st : List TestBitInfo × Bool) (regModified : Reg) :
    List TestBitInfo × Bool :=
  let raz := regRaz instr st.2 regModified
  (st.1 ++ bitTargets instr raz regModified, raz)

/-- The register section of generateTestMatrix together with the final value
of resultAlwaysZero. -/
def regMatrixPart (instr : Instr) : List TestBitInfo × Bool :=
  (getRegsModified instr).foldl (regStep instr) ([], semResultAlwaysZero0 instr)

/-- The value resultAlwaysZero holds when the flag loop starts. -/
def semRazFinal (instr : Instr) : Bool := (regMatrixPart instr).2

/-- testFlagZero for one flag bitmask, following the sequence of flag checks
in the source (ZF and PF are the ones that touch testFlagZero). -/
def flagTestZero (raz : Bool) (flag : Nat) : Bool :=
  let t := true
  let t := if flag = cpuflagZF then !raz else t
  let t := if flag = cpuflagPF then !raz else t
  t

/-- testFlagOne for one flag bitmask, following the sequence of flag checks in
the source (CF, OF, AF and SF are the ones that touch testFlagOne). -/
def flagTestOne (sameReg rightZero raz : Bool) (flag : Nat) : Bool :=
  let t := true
  let t := if flag = cpuflagCF then !raz && !rightZero else t
  let t := if flag = cpuflagOF then !sameReg && !rightZero else t
  let t := if flag = cpuflagAF then !raz && !rightZero else t
  let t := if flag = cpuflagSF then !raz else t
  t

/-- The flag targets emitted for flag index i by the flag loop of
generateTestMatrix: the modified-mask targets (suppressed entirely when
operand 1 is an immediate), then the set_0 target, then the set_1 target. -/
def flagTargets (instr : Instr) (raz : Bool) (i : Nat) : List TestBitInfo :=
  let flag := 1 <<< i
  let modPart :=
    if ¬ semInputIsImmediate instr ∧ getFlagsModified instr &&& flag ≠ 0 then
      (if flagTestZero raz flag then [TestBitInfo.mk .None .FLAGS i 0] else [])
        ++ (if flagTestOne (semRegDestSrcSame instr) (semRightInputZero instr) raz flag then
              [TestBitInfo.mk .None .FLAGS i 1] else [])
    else []
  modPart
    ++ (if getFlagsSet0 instr &&& flag ≠ 0 then [TestBitInfo.mk .None .FLAGS i 0] else [])
    ++ (if getFlagsSet1 instr &&& flag ≠ 0 then [TestBitInfo.mk .None .FLAGS i 1] else [])

/-- generateTestMatrix from the source: register bit targets, then flag
targets for the 32 EFLAGS bit positions, then exception targets. -/
def generateTestMatrix (instr : Instr) : List TestBitInfo :=
  (regMatrixPart instr).1
    ++ (List.range 32).flatMap (flagTargets instr (semRazFinal instr))
    ++ (getExceptions instr).map (fun e => TestBitInfo.mk e .NONE 0 0)

/-- The sandbox register file as the driver sees it: byte vectors per
register (accessed at root granularity by the code under test) plus the
EFLAGS value accessed through set/getRegValue. -/
structure Ctx where
  regs : Reg → List Nat
  eflags : Nat

/-- ctx.setRegBytes. -/
def Ctx.setRegBytes (ctx : Ctx) (r : Reg) (bytes : List Nat) : Ctx :=
  { ctx with regs := fun x => if x = r then bytes else ctx.regs x }

/-- Sorted insert-or-replace into an sfl flat map from register to byte
vector (the inputRegs/outputRegs containers of a test case entry). -/
def storeReg (m : List (Reg × List Nat)) (r : Reg) (bytes : List Nat) :
    List (Reg × List Nat) :=
  match m with
  | [] => [(r, bytes)]
  | (k, v) :: rest =>
    if regIdx r < regIdx k then (r, bytes) :: (k, v) :: rest
    else if regIdx r = regIdx k then (r, bytes) :: rest
    else (k, v) :: storeReg rest r bytes

/-- TestCaseEntry from the source. -/
structure TestCaseEntry where
  inputRegs : List (Reg × List Nat) := []
  inputFlags : Option Nat := none
  outputRegs : List (Reg × List Nat) := []
  outputFlags : Option Nat := none
  exceptionType : Option ExceptionType := none
deriving DecidableEq, Repr

/-- The EFLAGS value clearOutput installs when the expected bit value is 0. -/
def flagsClearMask : Nat :=
  cpuflagCF ||| cpuflagPF ||| cpuflagAF ||| cpuflagZF ||| cpuflagSF ||| cpuflagOF

/-- clearOutput from the source: for an unfiltered target register, fill the
bytes of the sub-register (at its offset inside the root) with 0xFF when
expecting 0 and with 0x00 when expecting 1, the rest of the root buffer with
0; then set EFLAGS to the six-flag mask when expecting 0, else to 0. -/
def clearOutput (testBitInfo : TestBitInfo) (ctx : Ctx) : Ctx :=
  let ctx :=
    if ¬ isRegFiltered testBitInfo.reg then
      let regSize := regWidth testBitInfo.reg / 8
      let regOffset := getRegOffset testBitInfo.reg
      let bigReg := getRootReg testBitInfo.reg
      let bigRegSize := regWidth bigReg / 8
      let regBuf := (List.range bigRegSize).map (fun i =>
        if regOffset ≤ i ∧ i < regOffset + regSize then
          (if testBitInfo.expectedBitValue = 0 then 255 else 0)
        else 0)
      ctx.setRegBytes bigReg regBuf
    else ctx
  { ctx with eflags := if testBitInfo.expectedBitValue = 0 then flagsClearMask else 0 }

/-- The bit read by checkOutputs: byte of the root buffer at the
sub-register offset plus bitPos / 8, shifted by bitPos mod 8, masked to one
bit. -/
def observedBit (ctx : Ctx) (reg : Reg) (bitPos : Nat) : Nat :=
  let bigReg := getRootReg reg
  let regData := ctx.regs bigReg
  (regData.getD (getRegOffset reg + bitPos / 8) 0 >>> (bitPos % 8)) &&& 1

/-- Execution statuses the driver distinguishes.  The real status enum of the
execution context has further members; they are collapsed into OtherFailure,
which the classification switch of the source leaves unmapped. -/
inductive ExecStatus where
  | Success | ExceptionIntDivideError | ExceptionIntOverflow
  | IllegalInstruction | OtherFailure
deriving DecidableEq, Repr

/-- The external collaborators of the search loop, as parameters: the input
generator (state type gamma with current and advance), its per-target
construction, the instruction-seeded PRNG as a stream, and the sandboxed
execution of one instruction (none models a failed execute call). -/
structure SearchConfig (γ : Type) where
  cur : γ → List Nat
  adv : γ → γ × Bool
  mkGens : Instr → Nat → List γ × Nat
  rnd : Nat → Nat
  run : Nat → Ctx → Option (Ctx × ExecStatus)

/-- The mutable state the search loop threads: the execution context, the
input generator states, and the PRNG position. -/
structure SearchState (γ : Type) where
  ctx : Ctx
  gens : List γ
  rndIdx : Nat

/-- The cleansing loop of advanceInputs: every unfiltered root of a read
register is filled with 0xCC bytes. -/
def cleanseRegs (instr : Instr) (ctx : Ctx) : Ctx :=
  let regsRead := getRegsRead instr
  let regsReadBig := regsRead.foldl (fun acc reg => insertSet (getRootReg reg) acc) []
  regsReadBig.foldl
    (fun c reg =>
      if isRegFiltered reg then c
      else c.setRegBytes reg (List.replicate (regWidth reg / 8) 204)) ctx

/-- Staging of one unfiltered read register: read the current root buffer,
splice the input generator bytes at the sub-register offset, write the root
back and record it in inputRegs. -/
def stageOne {γ : Type} (C : SearchConfig γ) (reg : Reg) (g : γ)
    (entry : TestCaseEntry) (ctx : Ctx) : TestCaseEntry × Ctx :=
  let usedRegByteSize := regWidth reg / 8
  let bigReg := getRootReg reg
  let bigRegByteSize := regWidth bigReg / 8
  let regOffset := getRegOffset reg
  let inputData := C.cur g
  let regBuf := (List.range bigRegByteSize).map (fun j =>
    if regOffset ≤ j ∧ j < regOffset + usedRegByteSize then
      inputData.getD (j - regOffset) 0
    else (ctx.regs bigReg).getD j 0)
  ({ entry with inputRegs := storeReg entry.inputRegs bigReg regBuf },
    ctx.setRegBytes bigReg regBuf)

/-- The staging loop of advanceInputs: the generators are consumed in
lockstep with the unfiltered read registers. -/
def stageInputs {γ : Type} (C : SearchConfig γ) :
    List Reg → List γ → TestCaseEntry → Ctx → TestCaseEntry × Ctx
  | [], _, entry, ctx => (entry, ctx)
  | reg :: rest, gens, entry, ctx =>
    if isRegFiltered reg then stageInputs C rest gens entry ctx
    else
      match gens with
      | [] => stageInputs C rest [] entry ctx
      | g :: gs =>
        let s := stageOne C reg g entry ctx
        stageInputs C rest gs s.1 s.2

/-- The generator advancement loop of advanceInputs: advance each generator
in order; when one reports a rollover and (iteration + 1) mod 3 = 0, stop
advancing the remaining generators. -/
def advanceGenList {γ : Type} (adv : γ → γ × Bool) (iteration : Nat) :
    List γ → List γ
  | [] => []
  | g :: rest =>
    let r := adv g
    if r.2 ∧ (iteration + 1) % 3 = 0 then r.1 :: rest
    else r.1 :: advanceGenList adv iteration rest

/-- The flag randomization of advanceInputs: one PRNG draw per tested flag
bit, assembled into an EFLAGS value. -/
def drawFlags (rnd : Nat → Nat) (flagsRead : Nat) (rndIdx : Nat) : Nat × Nat :=
  (List.range 32).foldl
    (fun st i =>
      if flagsRead &&& (1 <<< i) ≠ 0 then (st.1 ||| ((rnd st.2 % 2) <<< i), st.2 + 1)
      else st)
    (0, rndIdx)

/-- advanceInputs from the source: cleanse the read roots, stage the
generator bytes, advance the generators, randomize the tested flags (storing
them in inputFlags before the trap flag is masked out), and write the
TF-cleared flags value to the context. -/
def advanceInputs {γ : Type} (C : SearchConfig γ) (instr : Instr) (iteration : Nat)
    (entry : TestCaseEntry) (st : SearchState γ) : TestCaseEntry × SearchState γ :=
  let regsRead := getRegsRead instr
  let flagsRead := getFlagsRead instr
  let ctx := cleanseRegs instr st.ctx
  let staged := stageInputs C regsRead st.gens entry ctx
  let entry := staged.1
  let ctx := staged.2
  let regIndex := (regsRead.filter (fun r => ¬ isRegFiltered r)).length
  let gens := advanceGenList C.adv iteration (st.gens.take regIndex) ++ st.gens.drop regIndex
  let flagged :=
    if flagsRead ≠ 0 then
      let fr := drawFlags C.rnd flagsRead st.rndIdx
      ({ entry with inputFlags := some fr.1 }, fr.1, fr.2)
    else (entry, 0, st.rndIdx)
  let flags := flagged.2.1 &&& 0xFFFFFEFF
  (flagged.1, { ctx := { ctx with eflags := flags }, gens := gens, rndIdx := flagged.2.2 })

/-- The output capture loop of checkOutputs: every modified root register is
copied (truncated to its byte width) into outputRegs. -/
def captureOutputRegs (instr : Instr) (ctx : Ctx) (entry : TestCaseEntry) : TestCaseEntry :=
  (getRegsModified instr).foldl
    (fun e regModified =>
      let bigReg := getRootReg regModified
      let bigSize := regWidth bigReg
      let regData := (List.range (bigSize / 8)).map (fun j => (ctx.regs bigReg).getD j 0)
      { e with outputRegs := storeReg e.outputRegs bigReg regData }) entry

/-- checkOutputs from the source: compare the observed target bit against the
expectation; on a match capture every modified root register and, when any
flag is modified, the EFLAGS value read as a 32-bit quantity with IF masked
out. -/
def checkOutputs (instr : Instr) (testBitInfo : TestBitInfo) (entry : TestCaseEntry)
    (ctx : Ctx) : Bool × TestCaseEntry :=
  let bitValue := observedBit ctx testBitInfo.reg testBitInfo.bitPos
  if bitValue ≠ testBitInfo.expectedBitValue then (false, entry)
  else
    let entry := captureOutputRegs instr ctx entry
    let entry :=
      if getFlagsModified instr ≠ 0 then
        { entry with outputFlags := some (ctx.eflags &&& 0xFFFFFDFF) }
      else entry
    (true, entry)

/-- Outcome of one iteration of the retry loop. -/
inductive StepOutcome where
  | hit | miss | illegal | fatal
deriving DecidableEq, Repr

/-- The status classification of one iteration of the retry loop, after the
execute call: map the exception statuses to ExceptionType, compare against
the target (an unexpected exception retries, a matching one is recorded in
the entry), run checkOutputs on a successful execution of a no-exception
target.  The illegal status wins over the recorded expectation, exactly as
the post-loop checks of the source order them. -/
def classifyStatus (instr : Instr) (testBitInfo : TestBitInfo) (entry : TestCaseEntry)
    (ctx : Ctx) (status : ExecStatus) : StepOutcome × TestCaseEntry :=
  if status = ExecStatus.Success then
    if testBitInfo.exceptionType = ExceptionType.None then
      let r := checkOutputs instr testBitInfo entry ctx
      ((if r.1 then .hit else .miss), r.2)
    else (.miss, entry)
  else
    let exceptionType : ExceptionType :=
      match status with
      | .ExceptionIntDivideError => .DivideError
      | .ExceptionIntOverflow => .IntegerOverflow
      | _ => .None
    let illegalInstr := status = ExecStatus.IllegalInstruction
    if exceptionType ≠ testBitInfo.exceptionType then
      ((if illegalInstr then .illegal else .miss), entry)
    else
      ((if illegalInstr then .illegal else .hit),
        { entry with exceptionType := some exceptionType })

/-- One iteration of the retry loop of testInstruction: clear the output
side, stage inputs, execute, classify the status. -/
def searchBody {γ : Type} (C : SearchConfig γ) (instr : Instr) (testBitInfo : TestBitInfo)
    (iteration : Nat) (entry : TestCaseEntry) (st : SearchState γ) :
    StepOutcome × TestCaseEntry × SearchState γ :=
  let adv := advanceInputs C instr iteration entry
    { st with ctx := clearOutput testBitInfo st.ctx }
  match C.run iteration adv.2.ctx with
  | none => (.fatal, adv.1, adv.2)
  | some (ctx2, status) =>
    let r := classifyStatus instr testBitInfo adv.1 ctx2 status
    (r.1, r.2, { adv.2 with ctx := ctx2 })

/-- Result of the retry loop for one target. -/
inductive SearchResult where
  | hit (e : TestCaseEntry) | exhausted | illegal | fatal
deriving DecidableEq, Repr

/-- The retry loop, by fuel.  The source breaks when the post-increment
iteration counter exceeds maxAttempts, so a start fuel of maxAttempts + 1
reproduces it exactly.  The returned Nat counts executed iterations. -/
def searchLoop {γ : Type} (C : SearchConfig γ) (instr : Instr) (testBitInfo : TestBitInfo) :
    Nat → Nat → TestCaseEntry → SearchState γ → SearchResult × Nat × SearchState γ
  | 0, _, _, st => (.exhausted, 0, st)
  | fuel + 1, iteration, entry, st =>
    let r := searchBody C instr testBitInfo iteration entry st
    match r.1 with
    | .hit => (.hit r.2.1, 1, r.2.2)
    | .illegal => (.illegal, 1, r.2.2)
    | .fatal => (.fatal, 1, r.2.2)
    | .miss =>
      let cont := searchLoop C instr testBitInfo fuel (iteration + 1) r.2.1 r.2.2
      (cont.1, cont.2.1 + 1, cont.2.2)

/-- kAbortTestCaseThreshold from the source. -/
def kAbortTestCaseThreshold : Nat := 100000

/-- The per-target attempt bound: the threshold, divided by 3 when any
operand is an immediate. -/
def maxAttemptsFor (instr : Instr) : Nat :=
  if isInputFromImmediate instr then kAbortTestCaseThreshold / 3
  else kAbortTestCaseThreshold

/-- The retry loop for one target, started on a fresh entry with the fuel
that reproduces the iteration-counter break of the source. -/
def searchTarget {γ : Type} (C : SearchConfig γ) (instr : Instr) (testBitInfo : TestBitInfo)
    (st : SearchState γ) : SearchResult × Nat × SearchState γ :=
  searchLoop C instr testBitInfo (maxAttemptsFor instr + 1) 0 {} st

/-- InstrTestGroup as testInstruction fills it (address and raw bytes are
omitted; fatalError records the early return after a failed execute call). -/
structure InstrTestGroup where
  entries : List TestCaseEntry := []
  illegalInstruction : Bool := false
  fatalError : Bool := false
deriving DecidableEq, Repr

/-- One step of the per-target loop of testInstruction: skip everything once
the group went illegal or fatal, otherwise build the per-target input
generators and run the retry loop, pushing the entry on a hit. -/
def processTarget {γ : Type} (C : SearchConfig γ) (instr : Instr)
    (acc : InstrTestGroup × SearchState γ) (testBitInfo : TestBitInfo) :
    InstrTestGroup × SearchState γ :=
  let group := acc.1
  let st := acc.2
  if group.illegalInstruction ∨ group.fatalError then acc
  else
    let mg := C.mkGens instr st.rndIdx
    let st : SearchState γ := { st with gens := mg.1, rndIdx := mg.2 }
    let r := searchTarget C instr testBitInfo st
    match r.1 with
    | .hit e => ({ group with entries := group.entries ++ [e] }, r.2.2)
    | .exhausted => (group, r.2.2)
    | .illegal => ({ group with illegalInstruction := true }, r.2.2)
    | .fatal => ({ group with fatalError := true }, r.2.2)

/-- testInstruction from the source: run the retry loop over the whole test
matrix, threading the context, generators and PRNG. -/
def testInstruction {γ : Type} (C : SearchConfig γ) (instr : Instr) (st0 : SearchState γ) :
    InstrTestGroup × SearchState γ :=
  (generateTestMatrix instr).foldl (processTarget C instr) ({}, st0)

/-- Reference behavior written from the words of the specification: advance
every generator once. -/
def advanceAllGens {γ : Type} (adv : γ → γ × Bool) (l : List γ) : List γ :=
  l.map (fun g => (adv g).1)

/-- Reference behavior written from the words of the specification: advance
generators one at a time and stop right after the first one that reports a
rollover. -/
def advanceUntilRollover {γ : Type} (adv : γ → γ × Bool) : List γ → List γ
  | [] => []
  | g :: rest =>
    let r := adv g
    if r.2 then r.1 :: rest else r.1 :: advanceUntilRollover adv rest

/-- An empty register file. -/
def ctx0 : Ctx := ⟨fun _ => [], 0⟩

/-- A register file whose byte vectors all read as a single 0x01 byte. -/
def ctxOne : Ctx := ⟨fun _ => [1], 0⟩

/-- A search state over the trivial generator type, on the empty register
file. -/
def st0 : SearchState Unit := ⟨ctx0, [], 0⟩

/-- A search state over the trivial generator type, on ctxOne. -/
def stOne : SearchState Unit := ⟨ctxOne, [], 0⟩

/-- An ADD with the operand list the decoder reports for ADD RAX, RBX: the two
explicit registers plus the hidden RFLAGS register operand (written). -/
def cexAddInstr : Instr :=
  { mnemonic := .ADD, operandCount := 3,
    operands := [ { type := .register, reg := .RAX, actions := 3 },
                  { type := .register, reg := .RBX, actions := 1 },
                  { type := .register, reg := .RFLAGS, actions := 2 } ],
    operandWidth := 64, addressWidth := 64, flagsModified := 2261 }

/-- A MOV EAX, imm32 shaped instruction: a written 32-bit destination
sub-register whose root is RAX. -/
def cexMovInstr : Instr :=
  { mnemonic := .MOV, operandCount := 2,
    operands := [ { type := .register, reg := .EAX, actions := 2 },
                  { type := .immediate, imm := { s := 1, u := 1 } } ],
    operandWidth := 32 }

/-- A CLD shaped instruction: no operands, DF (bit 10) in the set_0 mask. -/
def cexCldInstr : Instr := { flagsSet0 := 1024 }

/-- The DF expect-0 target that cexCldInstr puts into the test matrix. -/
def tbiDF : TestBitInfo := ⟨.None, .FLAGS, 10, 0⟩

/-- A DIV shaped instruction with an immediate operand and a nonzero
modified-flags mask: its test matrix is exactly the two exception targets. -/
def cexDivInstr : Instr :=
  { mnemonic := .DIV, operandCount := 2,
    operands := [ { type := .register, reg := .CL, actions := 1 },
                  { type := .immediate, imm := { s := 5, u := 5 } } ],
    operandWidth := 8, flagsModified := 64 }

/-- A sandbox run that raises the divide error on the first attempt of a
target and the overflow exception on every later attempt, so both exception
targets of cexDivInstr are witnessed. -/
def cexDivCfg : SearchConfig Unit :=
  { cur := fun _ => [7], adv := fun _ => ((), false),
    mkGens := fun _ n => ([()], n), rnd := fun _ => 0,
    run := fun it c =>
      some (c, if it = 0 then .ExceptionIntDivideError else .ExceptionIntOverflow) }

/-- An instruction whose matrix is the single target (FLAGS, 0, expect 0),
coming from the set_0 mask. -/
def set0Instr : Instr := { flagsSet0 := 1 }

/-- A sandbox whose execution always reports a status outside the
classification switch. -/
def otherFailCfg : SearchConfig Unit :=
  { cur := fun _ => [7], adv := fun _ => ((), false),
    mkGens := fun _ n => ([], n), rnd := fun _ => 0,
    run := fun _ c => some (c, .OtherFailure) }

/-- A sandbox whose execution always succeeds and never changes the register
file. -/
def successCfg : SearchConfig Unit :=
  { cur := fun _ => [7], adv := fun _ => ((), false),
    mkGens := fun _ n => ([], n), rnd := fun _ => 0,
    run := fun _ c => some (c, .Success) }

/-- A DIV shaped instruction with no operands and no flag metadata: its test
matrix is exactly the two exception targets. -/
def cexDivPlain : Instr := { mnemonic := .DIV }

/-- The divide-error target of a DIV instruction. -/
def tbiDiv : TestBitInfo := ⟨.DivideError, .NONE, 0, 0⟩

/-- An instruction that only modifies ZF, with no operands. -/
def wFlagInstr : Instr := { flagsModified := 64 }

/-- A BTR r32, imm8 shaped instruction with immediate value 5. -/
def wBtrInstr : Instr :=
  { mnemonic := .BTR, operandCount := 2,
    operands := [ { type := .register, reg := .EAX, actions := 3 },
                  { type := .immediate, imm := { s := 5, u := 5 } } ],
    operandWidth := 32 }

/-- An instruction that tests exactly the trap flag (bit 8). -/
def wTf8Instr : Instr := { flagsTested := 256 }

/-- A PRNG stream that always draws 1. -/
def oneCfg : SearchConfig Unit :=
  { cur := fun _ => [7], adv := fun _ => ((), false),
    mkGens := fun _ n => ([], n), rnd := fun _ => 1,
    run := fun _ c => some (c, .Success) }

/-- A generator step on Nat that counts advances and always reports a
rollover. -/
def cexAdvTrue : Nat → Nat × Bool := fun n => (n + 1, true)

/-- A generator step on Nat that counts advances and never reports a
rollover. -/
def cexAdvFalse : Nat → Nat × Bool := fun n => (n + 1, false)

/-- The ordering invariant an sfl flat set maintains. -/
def SortedIdx (l : List Reg) : Prop :=
  l.Pairwise (fun a b => regIdx a < regIdx b)

/-- The flat map never stores a key twice. -/
def KeysNodup (m : List (Reg × Reg)) : Prop := (m.map Prod.fst).Nodup

/-- The membership condition the two collection loops of getRegsRead
enforce: every register operand (with no filtering), plus unfiltered memory
base and index registers. -/
def readCollects (op : Operand) (x : Reg) : Prop :=
  (op.type = OperandType.register ∧ op.reg = x)
    ∨ (op.type = OperandType.memory
        ∧ ((op.mem.base = x ∧ x ≠ Reg.NONE ∧ isRegFiltered x = false)
          ∨ (op.mem.index = x ∧ x ≠ Reg.NONE ∧ isRegFiltered x = false)))

/-! Helper lemmas about the register metadata. -/

theorem regIdx_inj {a b : Reg} (h : regIdx a = regIdx b) : a = b := by
  revert h
  revert b
  revert a
  decide

theorem getRootReg_remapReg (r : Reg) : getRootReg (remapReg r) = getRootReg r := by
  revert r
  decide

theorem subreg_fits (r : Reg) (h : isRegFiltered r = false) :
    getRegOffset r + regWidth r / 8 ≤ regWidth (getRootReg r) / 8 := by
  revert h
  revert r
  decide

theorem root_not_filtered (r : Reg) (h : isRegFiltered r = false) :
    isRegFiltered (getRootReg r) = false := by
  revert h
  revert r
  decide

/-! Helper lemmas about the flat sets and the width sort. -/

theorem mem_insertSet {x r : Reg} : ∀ {l : List Reg}, x ∈ insertSet r l ↔ x = r ∨ x ∈ l := by
  intro l
  induction l with
  | nil => simp [insertSet]
  | cons y ys ih =>
    by_cases h1 : regIdx r < regIdx y
    · simp [insertSet, h1, List.mem_cons]
    · by_cases h2 : regIdx r = regIdx y
      · have hry : r = y := regIdx_inj h2
        subst hry
        simp [insertSet, h1, List.mem_cons]
      · simp [insertSet, h1, h2, List.mem_cons, ih]
        tauto

theorem sortedIdx_insertSet {r : Reg} :
    ∀ {l : List Reg}, SortedIdx l → SortedIdx (insertSet r l) := by
  intro l
  induction l with
  | nil =>
    intro _
    simp [insertSet, SortedIdx]
  | cons y ys ih =>
    intro hp
    rcases List.pairwise_cons.mp hp with ⟨hy, hys⟩
    by_cases h1 : regIdx r < regIdx y
    · simp only [insertSet, if_pos h1]
      refine List.pairwise_cons.mpr ⟨?_, hp⟩
      intro b hb
      rcases List.mem_cons.mp hb with h2 | h2
      · subst h2
        exact h1
      · exact Nat.lt_trans h1 (hy b h2)
    · by_cases h2 : regIdx r = regIdx y
      · have hry : r = y := regIdx_inj h2
        subst hry
        simpa [insertSet, h1] using hp
      · simp only [insertSet, if_neg h1, if_neg h2]
        refine List.pairwise_cons.mpr ⟨?_, ih hys⟩
        intro b hb
        rcases mem_insertSet.mp hb with h3 | h3
        · subst h3
          omega
        · exact hy b h3

theorem SortedIdx.nodup {l : List Reg} (h : SortedIdx l) : l.Nodup :=
  h.imp (fun hlt he => by subst he; exact Nat.lt_irrefl _ hlt)

theorem mem_insertByWidth {x r : Reg} :
    ∀ {l : List Reg}, x ∈ insertByWidth r l ↔ x = r ∨ x ∈ l := by
  intro l
  induction l with
  | nil => simp [insertByWidth]
  | cons y ys ih =>
    by_cases h : regWidth y > regWidth r
    · simp [insertByWidth, h, List.mem_cons, ih]
      tauto
    · simp [insertByWidth, h, List.mem_cons]

theorem nodup_insertByWidth {r : Reg} :
    ∀ {l : List Reg}, r ∉ l → l.Nodup → (insertByWidth r l).Nodup := by
  intro l
  induction l with
  | nil => simp [insertByWidth]
  | cons y ys ih =>
    intro hr hnd
    rcases List.nodup_cons.mp hnd with ⟨hy, hys⟩
    have hry : r ≠ y := fun h => hr (by simp [h])
    have hrys : r ∉ ys := fun h => hr (by simp [h])
    by_cases h : regWidth y > regWidth r
    · simp only [insertByWidth, if_pos h]
      refine List.nodup_cons.mpr ⟨?_, ih hrys hys⟩
      intro hmem
      rcases mem_insertByWidth.mp hmem with h2 | h2
      · exact hry h2.symm
      · exact hy h2
    · simp only [insertByWidth, if_neg h]
      refine List.nodup_cons.mpr ⟨?_, hnd⟩
      simpa [List.mem_cons] using ⟨hry, fun hmem => (hrys hmem).elim⟩

theorem mem_sortRegs {x : Reg} : ∀ {l : List Reg}, x ∈ sortRegs l ↔ x ∈ l := by
  intro l
  induction l with
  | nil => simp [sortRegs]
  | cons y ys ih =>
    simp [sortRegs, mem_insertByWidth, List.mem_cons, ih]

theorem nodup_sortRegs : ∀ {l : List Reg}, l.Nodup → (sortRegs l).Nodup := by
  intro l
  induction l with
  | nil => simp [sortRegs]
  | cons y ys ih =>
    intro hnd
    rcases List.nodup_cons.mp hnd with ⟨hy, hys⟩
    exact nodup_insertByWidth (fun h => hy (mem_sortRegs.mp h)) (ih hys)

theorem pairwise_insertByWidth {r : Reg} :
    ∀ {l : List Reg}, l.Pairwise (fun a b => regWidth b ≤ regWidth a) →
      (insertByWidth r l).Pairwise (fun a b => regWidth b ≤ regWidth a) := by
  intro l
  induction l with
  | nil => simp [insertByWidth]
  | cons y ys ih =>
    intro hp
    rcases List.pairwise_cons.mp hp with ⟨hy, hys⟩
    by_cases h : regWidth y > regWidth r
    · simp only [insertByWidth, if_pos h]
      refine List.pairwise_cons.mpr ⟨?_, ih hys⟩
      intro b hb
      rcases mem_insertByWidth.mp hb with h2 | h2
      · subst h2
        exact Nat.le_of_lt h
      · exact hy b h2
    · simp only [insertByWidth, if_neg h]
      refine List.pairwise_cons.mpr ⟨?_, hp⟩
      intro b hb
      rcases List.mem_cons.mp hb with h2 | h2
      · subst h2
        omega
      · exact Nat.le_trans (hy b h2) (by omega)

theorem pairwise_sortRegs :
    ∀ {l : List Reg}, (sortRegs l).Pairwise (fun a b => regWidth b ≤ regWidth a) := by
  intro l
  induction l with
  | nil => simp [sortRegs]
  | cons y ys ih => exact pairwise_insertByWidth ih

/-! Characterization of getRegsModified. -/

theorem exists_mem_cons {α : Type} {o : α} {os : List α} {Q : α → Prop} :
    (∃ a ∈ o :: os, Q a) ↔ Q o ∨ ∃ a ∈ os, Q a := by
  constructor
  · rintro ⟨a, ha, hq⟩
    rcases List.mem_cons.mp ha with he | he
    · subst he
      exact Or.inl hq
    · exact Or.inr ⟨a, he, hq⟩
  · rintro (h | ⟨a, ha, hq⟩)
    · exact ⟨o, List.mem_cons_self o os, h⟩
    · exact ⟨a, List.mem_cons_of_mem o ha, hq⟩

theorem mem_regsModifiedFold (ops : List Operand) :
    ∀ (acc : List Reg) (x : Reg),
      x ∈ ops.foldl (fun acc op =>
          if op.type = OperandType.register ∧ op.actions &&& actionMaskWrite ≠ 0 then
            if isRegFiltered op.reg then acc else insertSet op.reg acc
          else acc) acc
      ↔ x ∈ acc ∨ ∃ op ∈ ops, op.type = OperandType.register
          ∧ op.actions &&& actionMaskWrite ≠ 0 ∧ op.reg = x ∧ isRegFiltered x = false := by
  induction ops with
  | nil => simp
  | cons o os ih =>
    intro acc x
    rw [List.foldl_cons, ih, exists_mem_cons]
    by_cases h1 : o.type = OperandType.register ∧ o.actions &&& actionMaskWrite ≠ 0
    · by_cases h2 : isRegFiltered o.reg
      · have hno : ¬(o.type = OperandType.register ∧ o.actions &&& actionMaskWrite ≠ 0
            ∧ o.reg = x ∧ isRegFiltered x = false) := by
          rintro ⟨_, _, hr, hf⟩
          rw [← hr, h2] at hf
          cases hf
        rw [if_pos h1, if_pos h2]
        tauto
      · have hiff : x = o.reg ↔ (o.type = OperandType.register
            ∧ o.actions &&& actionMaskWrite ≠ 0 ∧ o.reg = x ∧ isRegFiltered x = false) := by
          constructor
          · intro he
            exact ⟨h1.1, h1.2, he.symm, by rw [he]; simpa using h2⟩
          · rintro ⟨_, _, hr, _⟩
            exact hr.symm
        rw [if_pos h1, if_neg h2, mem_insertSet]
        tauto
    · have hno : ¬(o.type = OperandType.register ∧ o.actions &&& actionMaskWrite ≠ 0
          ∧ o.reg = x ∧ isRegFiltered x = false) := by
        rintro ⟨ht, ha, _, _⟩
        exact h1 ⟨ht, ha⟩
      rw [if_neg h1]
      tauto

theorem sortedIdx_regsModifiedFold (ops : List Operand) :
    ∀ (acc : List Reg), SortedIdx acc →
      SortedIdx (ops.foldl (fun acc op =>
          if op.type = OperandType.register ∧ op.actions &&& actionMaskWrite ≠ 0 then
            if isRegFiltered op.reg then acc else insertSet op.reg acc
          else acc) acc) := by
  induction ops with
  | nil => exact fun acc h => h
  | cons o os ih =>
    intro acc hacc
    simp only [List.foldl_cons]
    apply ih
    split
    · split
      · exact hacc
      · exact sortedIdx_insertSet hacc
    · exact hacc

theorem mem_getRegsModified {instr : Instr} {r : Reg} :
    r ∈ getRegsModified instr ↔ ∃ op ∈ instr.opList, op.type = OperandType.register
        ∧ op.actions &&& actionMaskWrite ≠ 0 ∧ op.reg = r ∧ isRegFiltered r = false := by
  unfold getRegsModified
  rw [mem_sortRegs, mem_regsModifiedFold]
  simp

theorem getRegsModified_not_filtered {instr : Instr} {r : Reg}
    (h : r ∈ getRegsModified instr) : isRegFiltered r = false :=
  (mem_getRegsModified.mp h).choose_spec.2.2.2.2

theorem getRegsModified_pairwise (instr : Instr) :
    (getRegsModified instr).Pairwise (fun a b => regWidth b ≤ regWidth a) := by
  unfold getRegsModified
  exact pairwise_sortRegs

theorem getRegsModified_nodup (instr : Instr) : (getRegsModified instr).Nodup := by
  unfold getRegsModified
  exact nodup_sortRegs (sortedIdx_regsModifiedFold _ _ (by simp [SortedIdx])).nodup

/-- C4 counterexample: for a MOV EAX, imm32 shaped instruction the only write
register operand is the sub-register EAX, whose root is RAX; getRegsModified
returns EAX itself and not the root RAX, so the claim that it returns exactly
the roots of the written register operands fails. -/
theorem getRegsModified_roots_cex :
    getRegsModified cexMovInstr = [Reg.EAX]
      ∧ Reg.RAX ∉ getRegsModified cexMovInstr
      ∧ (cexMovInstr.op 0).type = OperandType.register
      ∧ (cexMovInstr.op 0).actions &&& actionMaskWrite ≠ 0
      ∧ (cexMovInstr.op 0).reg = Reg.EAX
      ∧ getRootReg Reg.EAX = Reg.RAX
      ∧ Reg.EAX ≠ Reg.RAX := by
  decide

/-- C4 amended: getRegsModified returns exactly the register operands
themselves (not their roots) whose action mask includes a write, excluding
IP, NONE and the flags aliases, without duplicates and ordered by register
width descending. -/
theorem getRegsModified_amended (instr : Instr) (r : Reg) :
    (r ∈ getRegsModified instr ↔ ∃ op ∈ instr.opList, op.type = OperandType.register
        ∧ op.actions &&& actionMaskWrite ≠ 0 ∧ op.reg = r ∧ isRegFiltered r = false)
      ∧ (getRegsModified instr).Pairwise (fun a b => regWidth b ≤ regWidth a)
      ∧ (getRegsModified instr).Nodup :=
  ⟨mem_getRegsModified, getRegsModified_pairwise instr, getRegsModified_nodup instr⟩

/-! Lemmas about the flat map used by getRegsRead. -/

theorem mem_mapInsert {kv : Reg × Reg} {k v : Reg} :
    ∀ {m : List (Reg × Reg)}, kv ∈ mapInsert k v m ↔ kv = (k, v) ∨ kv ∈ m := by
  intro m
  induction m with
  | nil => simp [mapInsert]
  | cons p rest ih =>
    rcases p with ⟨k2, v2⟩
    by_cases h : regIdx k < regIdx k2
    · simp [mapInsert, h, List.mem_cons]
    · simp [mapInsert, h, List.mem_cons, ih]
      tauto

theorem map_fst_mapInsert {k v : Reg} :
    ∀ {m : List (Reg × Reg)}, (mapInsert k v m).map Prod.fst = k :: m.map Prod.fst
      ∨ ∃ l1 l2, m.map Prod.fst = l1 ++ l2
        ∧ (mapInsert k v m).map Prod.fst = l1 ++ k :: l2 := by
  intro m
  induction m with
  | nil =>
    left
    simp [mapInsert]
  | cons p rest ih =>
    rcases p with ⟨k2, v2⟩
    by_cases h : regIdx k < regIdx k2
    · left
      simp [mapInsert, h]
    · right
      rcases ih with h2 | ⟨l1, l2, he1, he2⟩
      · exact ⟨[k2], rest.map Prod.fst, by simp, by simp [mapInsert, h, h2]⟩
      · exact ⟨k2 :: l1, l2, by simp [he1], by simp [mapInsert, h, he2]⟩

theorem keysNodup_mapInsert {k v : Reg} {m : List (Reg × Reg)}
    (hk : k ∉ m.map Prod.fst) (hnd : KeysNodup m) : KeysNodup (mapInsert k v m) := by
  unfold KeysNodup at hnd ⊢
  rcases map_fst_mapInsert (k := k) (v := v) (m := m) with h | ⟨l1, l2, he1, he2⟩
  · rw [h]
    exact List.nodup_cons.mpr ⟨hk, hnd⟩
  · rw [he2]
    rw [he1] at hnd hk
    exact List.nodup_middle.mpr (List.nodup_cons.mpr ⟨by simpa using hk, hnd⟩)

theorem map_fst_mapReplace {k v : Reg} :
    ∀ {m : List (Reg × Reg)}, (mapReplace k v m).map Prod.fst = m.map Prod.fst := by
  intro m
  induction m with
  | nil => simp [mapReplace]
  | cons p rest ih =>
    rcases p with ⟨k2, v2⟩
    by_cases h : k2 = k
    · simp [mapReplace, h]
    · simp [mapReplace, h, ih]

theorem mapFind_eq_none_iff {k : Reg} :
    ∀ {m : List (Reg × Reg)}, mapFind k m = none ↔ k ∉ m.map Prod.fst := by
  intro m
  induction m with
  | nil => simp [mapFind]
  | cons p rest ih =>
    rcases p with ⟨k2, v2⟩
    by_cases h : k2 = k
    · simp [mapFind, h]
    · rw [mapFind, if_neg h, List.map_cons, List.mem_cons, ih]
      constructor
      · intro hk hc
        rcases hc with he | he
        · exact h (by simpa using he.symm)
        · exact hk he
      · intro hk he
        exact hk (Or.inr he)

theorem mapFind_some_mem {k v : Reg} :
    ∀ {m : List (Reg × Reg)}, mapFind k m = some v → (k, v) ∈ m := by
  intro m
  induction m with
  | nil => simp [mapFind]
  | cons p rest ih =>
    rcases p with ⟨k2, v2⟩
    by_cases h : k2 = k
    · subst h
      intro hf
      rw [mapFind, if_pos rfl] at hf
      have hv : v2 = v := by simpa using hf
      subst hv
      exact List.mem_cons_self _ _
    · intro hf
      rw [mapFind, if_neg h] at hf
      exact List.mem_cons_of_mem _ (ih hf)

theorem mapFind_of_mem {k v : Reg} :
    ∀ {m : List (Reg × Reg)}, KeysNodup m → (k, v) ∈ m → mapFind k m = some v := by
  intro m
  induction m with
  | nil => simp
  | cons p rest ih =>
    rcases p with ⟨k2, v2⟩
    intro hnd hmem
    have hnd2 := List.nodup_cons.mp hnd
    rcases List.mem_cons.mp hmem with he | he
    · rw [Prod.mk.injEq] at he
      simp [mapFind, he.1, he.2]
    · by_cases h : k2 = k
      · subst h
        exact absurd (List.mem_map.mpr ⟨(k2, v), he, rfl⟩) hnd2.1
      · simp only [mapFind, if_neg h]
        exact ih hnd2.2 he

theorem mem_unique_of_keysNodup {m : List (Reg × Reg)} (hnd : KeysNodup m)
    {kv1 kv2 : Reg × Reg} (h1 : kv1 ∈ m) (h2 : kv2 ∈ m) (hk : kv1.1 = kv2.1) :
    kv1 = kv2 := by
  rcases kv1 with ⟨k1, v1⟩
  rcases kv2 with ⟨k2, v2⟩
  simp only at hk
  subst hk
  have hf1 := mapFind_of_mem hnd h1
  have hf2 := mapFind_of_mem hnd h2
  rw [hf1] at hf2
  have hv : v1 = v2 := by simpa using hf2
  rw [hv]

theorem mem_mapReplace_iff {k v : Reg} :
    ∀ {m : List (Reg × Reg)}, KeysNodup m → ∀ {kv : Reg × Reg},
      kv ∈ mapReplace k v m
        ↔ (kv = (k, v) ∧ k ∈ m.map Prod.fst) ∨ (kv ∈ m ∧ kv.1 ≠ k) := by
  intro m
  induction m with
  | nil => simp [mapReplace]
  | cons p rest ih =>
    rcases p with ⟨k2, v2⟩
    intro hnd kv
    have hndc : (k2 :: rest.map Prod.fst).Nodup := by simpa [KeysNodup] using hnd
    have hnd2 := List.nodup_cons.mp hndc
    have hndr : KeysNodup rest := hnd2.2
    by_cases h : k2 = k
    · subst h
      rw [mapReplace, if_pos rfl]
      constructor
      · intro hmem
        rcases List.mem_cons.mp hmem with he | he
        · exact Or.inl ⟨he, by simp⟩
        · refine Or.inr ⟨List.mem_cons_of_mem _ he, ?_⟩
          intro hk
          exact hnd2.1 (List.mem_map.mpr ⟨kv, he, hk⟩)
      · rintro (⟨he, _⟩ | ⟨he, hne⟩)
        · rw [he]
          exact List.mem_cons_self _ _
        · rcases List.mem_cons.mp he with he2 | he2
          · exact absurd (by rw [he2]) hne
          · exact List.mem_cons_of_mem _ he2
    · rw [mapReplace, if_neg h]
      constructor
      · intro hmem
        rcases List.mem_cons.mp hmem with he | he
        · refine Or.inr ⟨List.mem_cons.mpr (Or.inl he), ?_⟩
          rw [he]
          exact fun hke => h (by simpa using hke)
        · rcases (ih hndr).mp he with ⟨he2, hk⟩ | ⟨he2, hne⟩
          · exact Or.inl ⟨he2, by simp [hk]⟩
          · exact Or.inr ⟨List.mem_cons_of_mem _ he2, hne⟩
      · rintro (⟨he, hk⟩ | ⟨he, hne⟩)
        · have hk2 : k ∈ rest.map Prod.fst := by
            rw [List.map_cons, List.mem_cons] at hk
            rcases hk with hke | hke
            · exact absurd (by simpa using hke.symm) h
            · exact hke
          exact List.mem_cons_of_mem _ ((ih hndr).mpr (Or.inl ⟨he, hk2⟩))
        · rcases List.mem_cons.mp he with he2 | he2
          · rw [he2]
            exact List.mem_cons_self _ _
          · exact List.mem_cons_of_mem _ ((ih hndr).mpr (Or.inr ⟨he2, hne⟩))

/-! Characterization of the collection loops of getRegsRead. -/

theorem collectStep1_memory (acc : List Reg) (reg : Reg) (mem : MemOperand)
    (imm : ImmValue) (actions : Nat) :
    collectStep1 acc ⟨.memory, reg, mem, imm, actions⟩
      = (if mem.index ≠ Reg.NONE ∧ ¬ isRegFiltered mem.index then
          insertSet mem.index (if mem.base ≠ Reg.NONE ∧ ¬ isRegFiltered mem.base then
            insertSet mem.base acc else acc)
        else (if mem.base ≠ Reg.NONE ∧ ¬ isRegFiltered mem.base then
            insertSet mem.base acc else acc)) := rfl

theorem mem_collectFold1 (ops : List Operand) :
    ∀ (acc : List Reg) (x : Reg),
      x ∈ ops.foldl collectStep1 acc ↔ x ∈ acc ∨ ∃ op ∈ ops, readCollects op x := by
  induction ops with
  | nil => simp
  | cons o os ih =>
    intro acc x
    rw [List.foldl_cons, ih, exists_mem_cons]
    rcases o with ⟨t, reg, mem, imm, actions⟩
    cases t with
    | register =>
      have hiff : readCollects ⟨.register, reg, mem, imm, actions⟩ x ↔ x = reg := by
        constructor
        · rintro (⟨_, hr⟩ | ⟨ht, _⟩)
          · exact hr.symm
          · cases ht
        · intro he
          exact Or.inl ⟨rfl, he.symm⟩
      rw [show collectStep1 acc ⟨.register, reg, mem, imm, actions⟩
          = insertSet reg acc from rfl, mem_insertSet, hiff]
      itauto
    | memory =>
      have hbase : (mem.base = x ∧ x ≠ Reg.NONE ∧ isRegFiltered x = false)
          ↔ ((mem.base ≠ Reg.NONE ∧ ¬ isRegFiltered mem.base = true) ∧ x = mem.base) := by
        constructor
        · rintro ⟨hb, hn, hf⟩
          rw [← hb] at hn hf
          exact ⟨⟨hn, by simp [hf]⟩, hb.symm⟩
        · rintro ⟨⟨hn, hf⟩, he⟩
          subst he
          exact ⟨rfl, hn, by simpa using hf⟩
      have hindex : (mem.index = x ∧ x ≠ Reg.NONE ∧ isRegFiltered x = false)
          ↔ ((mem.index ≠ Reg.NONE ∧ ¬ isRegFiltered mem.index = true) ∧ x = mem.index) := by
        constructor
        · rintro ⟨hb, hn, hf⟩
          rw [← hb] at hn hf
          exact ⟨⟨hn, by simp [hf]⟩, hb.symm⟩
        · rintro ⟨⟨hn, hf⟩, he⟩
          subst he
          exact ⟨rfl, hn, by simpa using hf⟩
      have hrc : readCollects ⟨.memory, reg, mem, imm, actions⟩ x
          ↔ ((mem.base ≠ Reg.NONE ∧ ¬ isRegFiltered mem.base = true) ∧ x = mem.base)
            ∨ ((mem.index ≠ Reg.NONE ∧ ¬ isRegFiltered mem.index = true) ∧ x = mem.index) := by
        unfold readCollects
        constructor
        · rintro (⟨ht, _⟩ | ⟨_, hc | hc⟩)
          · cases ht
          · exact Or.inl (hbase.mp hc)
          · exact Or.inr (hindex.mp hc)
        · rintro (hc | hc)
          · exact Or.inr ⟨rfl, Or.inl (hbase.mpr hc)⟩
          · exact Or.inr ⟨rfl, Or.inr (hindex.mpr hc)⟩
      rw [hrc, collectStep1_memory]
      by_cases hb : mem.base ≠ Reg.NONE ∧ ¬ isRegFiltered mem.base
      · by_cases hi : mem.index ≠ Reg.NONE ∧ ¬ isRegFiltered mem.index
        · rw [if_pos hi, if_pos hb, mem_insertSet, mem_insertSet]
          itauto
        · rw [if_neg hi, if_pos hb, mem_insertSet]
          itauto
      · by_cases hi : mem.index ≠ Reg.NONE ∧ ¬ isRegFiltered mem.index
        · rw [if_pos hi, if_neg hb, mem_insertSet]
          itauto
        · rw [if_neg hi, if_neg hb]
          itauto
    | unused =>
      have hno : readCollects ⟨.unused, reg, mem, imm, actions⟩ x ↔ False := by
        constructor
        · rintro (⟨ht, _⟩ | ⟨ht, _⟩) <;> cases ht
        · exact False.elim
      rw [show collectStep1 acc ⟨.unused, reg, mem, imm, actions⟩ = acc from rfl, hno]
      itauto
    | pointer =>
      have hno : readCollects ⟨.pointer, reg, mem, imm, actions⟩ x ↔ False := by
        constructor
        · rintro (⟨ht, _⟩ | ⟨ht, _⟩) <;> cases ht
        · exact False.elim
      rw [show collectStep1 acc ⟨.pointer, reg, mem, imm, actions⟩ = acc from rfl, hno]
      itauto
    | immediate =>
      have hno : readCollects ⟨.immediate, reg, mem, imm, actions⟩ x ↔ False := by
        constructor
        · rintro (⟨ht, _⟩ | ⟨ht, _⟩) <;> cases ht
        · exact False.elim
      rw [show collectStep1 acc ⟨.immediate, reg, mem, imm, actions⟩ = acc from rfl, hno]
      itauto

theorem mem_collectFold2 (ops : List Operand) :
    ∀ (acc : List Reg) (x : Reg),
      x ∈ ops.foldl collectStep2 acc ↔ x ∈ acc ∨ ∃ op ∈ ops,
        op.type = OperandType.register
          ∧ (regClass op.reg = RegClass.gpr16 ∨ regClass op.reg = RegClass.gpr8)
          ∧ op.reg = x := by
  induction ops with
  | nil => simp
  | cons o os ih =>
    intro acc x
    rw [List.foldl_cons, ih, exists_mem_cons]
    by_cases h : o.type = OperandType.register
        ∧ (regClass o.reg = RegClass.gpr16 ∨ regClass o.reg = RegClass.gpr8)
    · have hiff : (o.type = OperandType.register
          ∧ (regClass o.reg = RegClass.gpr16 ∨ regClass o.reg = RegClass.gpr8)
          ∧ o.reg = x) ↔ x = o.reg := by
        constructor
        · rintro ⟨_, _, hr⟩
          exact hr.symm
        · intro he
          exact ⟨h.1, h.2, he.symm⟩
      rw [show collectStep2 acc o = insertSet o.reg acc from by
          unfold collectStep2
          rw [if_pos h], mem_insertSet, hiff]
      itauto
    · have hno : (o.type = OperandType.register
          ∧ (regClass o.reg = RegClass.gpr16 ∨ regClass o.reg = RegClass.gpr8)
          ∧ o.reg = x) ↔ False := by
        constructor
        · rintro ⟨h1, h2, _⟩
          exact h ⟨h1, h2⟩
        · exact False.elim
      rw [show collectStep2 acc o = acc from by
          unfold collectStep2
          rw [if_neg h], hno]
      itauto

theorem mem_collectRegsRead {instr : Instr} {x : Reg} :
    x ∈ collectRegsRead instr ↔ ∃ op ∈ instr.opList, readCollects op x := by
  unfold collectRegsRead
  rw [mem_collectFold2, mem_collectFold1]
  constructor
  · rintro ((h | h) | ⟨op, hop, h1, _, h3⟩)
    · cases h
    · exact h
    · exact ⟨op, hop, Or.inl ⟨h1, h3⟩⟩
  · intro h
    exact Or.inl (Or.inr h)

/-! The invariant of the overlap-resolution fold of getRegsRead. -/

theorem regMapStep_inv {m : List (Reg × Reg)} {processed : List Reg} {r : Reg}
    (h1 : ∀ kv ∈ m, getRootReg kv.2 = kv.1
        ∧ ∃ s ∈ processed, kv.2 = remapReg s ∧ getRootReg s = kv.1)
    (h2 : ∀ s ∈ processed, ∃ kv ∈ m, kv.1 = getRootReg s)
    (h3 : ∀ kv ∈ m, ∀ s ∈ processed,
        getRootReg s = kv.1 → regWidth (remapReg s) ≤ regWidth kv.2)
    (h4 : KeysNodup m) :
    (∀ kv ∈ regMapStep m r, getRootReg kv.2 = kv.1
        ∧ ∃ s ∈ processed ++ [r], kv.2 = remapReg s ∧ getRootReg s = kv.1)
      ∧ (∀ s ∈ processed ++ [r], ∃ kv ∈ regMapStep m r, kv.1 = getRootReg s)
      ∧ (∀ kv ∈ regMapStep m r, ∀ s ∈ processed ++ [r],
          getRootReg s = kv.1 → regWidth (remapReg s) ≤ regWidth kv.2)
      ∧ KeysNodup (regMapStep m r) := by
  unfold regMapStep
  split
  case _ cur hf =>
    have hbigmem : (getRootReg r, cur) ∈ m := mapFind_some_mem hf
    have hkeys : getRootReg r ∈ m.map Prod.fst := List.mem_map.mpr ⟨_, hbigmem, rfl⟩
    by_cases hw : regWidth (remapReg r) > regWidth cur
    · rw [if_pos hw]
      have hmm : ∀ {kv : Reg × Reg}, kv ∈ mapReplace (getRootReg r) (remapReg r) m
          ↔ (kv = (getRootReg r, remapReg r) ∧ getRootReg r ∈ m.map Prod.fst)
            ∨ (kv ∈ m ∧ kv.1 ≠ getRootReg r) := mem_mapReplace_iff h4
      refine ⟨?_, ?_, ?_, ?_⟩
      · intro kv hkv
        rcases hmm.mp hkv with ⟨he, _⟩ | ⟨hin, _⟩
        · subst he
          exact ⟨getRootReg_remapReg r,
            r, List.mem_append_right _ (List.mem_singleton.mpr rfl), rfl, rfl⟩
        · obtain ⟨hroot, s, hs, hrem, hrs⟩ := h1 kv hin
          exact ⟨hroot, s, List.mem_append_left _ hs, hrem, hrs⟩
      · intro s hs
        rcases List.mem_append.mp hs with hsp | hsr
        · obtain ⟨kv, hkv, hk⟩ := h2 s hsp
          by_cases hkb : kv.1 = getRootReg r
          · refine ⟨(getRootReg r, remapReg r), hmm.mpr (Or.inl ⟨rfl, hkeys⟩), ?_⟩
            rw [show ((getRootReg r, remapReg r) : Reg × Reg).1 = getRootReg r from rfl,
              ← hkb, hk]
          · exact ⟨kv, hmm.mpr (Or.inr ⟨hkv, hkb⟩), hk⟩
        · have hsr2 : s = r := by simpa using hsr
          subst hsr2
          exact ⟨(getRootReg s, remapReg s), hmm.mpr (Or.inl ⟨rfl, hkeys⟩), rfl⟩
      · intro kv hkv s hs hroot
        rcases hmm.mp hkv with ⟨he, _⟩ | ⟨hin, hne⟩
        · subst he
          rcases List.mem_append.mp hs with hsp | hsr
          · have hle := h3 (getRootReg r, cur) hbigmem s hsp (by simpa using hroot)
            simp only at hle ⊢
            omega
          · have hsr2 : s = r := by simpa using hsr
            subst hsr2
            simp
        · rcases List.mem_append.mp hs with hsp | hsr
          · exact h3 kv hin s hsp hroot
          · have hsr2 : s = r := by simpa using hsr
            subst hsr2
            exact absurd hroot.symm hne
      · unfold KeysNodup
        rw [map_fst_mapReplace]
        exact h4
    · rw [if_neg hw]
      refine ⟨?_, ?_, ?_, h4⟩
      · intro kv hkv
        obtain ⟨hroot, s, hs, hrem, hrs⟩ := h1 kv hkv
        exact ⟨hroot, s, List.mem_append_left _ hs, hrem, hrs⟩
      · intro s hs
        rcases List.mem_append.mp hs with hsp | hsr
        · exact h2 s hsp
        · have hsr2 : s = r := by simpa using hsr
          subst hsr2
          exact ⟨(getRootReg s, cur), hbigmem, rfl⟩
      · intro kv hkv s hs hroot
        rcases List.mem_append.mp hs with hsp | hsr
        · exact h3 kv hkv s hsp hroot
        · have hsr2 : s = r := by simpa using hsr
          subst hsr2
          have hkv2 : kv = (getRootReg s, cur) :=
            mem_unique_of_keysNodup h4 hkv hbigmem (by simpa using hroot.symm)
          subst hkv2
          simp only
          omega
  case _ hf =>
    have hnk : getRootReg r ∉ m.map Prod.fst := mapFind_eq_none_iff.mp hf
    refine ⟨?_, ?_, ?_, keysNodup_mapInsert hnk h4⟩
    · intro kv hkv
      rcases mem_mapInsert.mp hkv with he | hin
      · subst he
        exact ⟨getRootReg_remapReg r,
          r, List.mem_append_right _ (List.mem_singleton.mpr rfl), rfl, rfl⟩
      · obtain ⟨hroot, s, hs, hrem, hrs⟩ := h1 kv hin
        exact ⟨hroot, s, List.mem_append_left _ hs, hrem, hrs⟩
    · intro s hs
      rcases List.mem_append.mp hs with hsp | hsr
      · obtain ⟨kv, hkv, hk⟩ := h2 s hsp
        exact ⟨kv, mem_mapInsert.mpr (Or.inr hkv), hk⟩
      · have hsr2 : s = r := by simpa using hsr
        subst hsr2
        exact ⟨(getRootReg s, remapReg s), mem_mapInsert.mpr (Or.inl rfl), rfl⟩
    · intro kv hkv s hs hroot
      rcases mem_mapInsert.mp hkv with he | hin
      · subst he
        rcases List.mem_append.mp hs with hsp | hsr
        · obtain ⟨kv2, hkv2, hk2⟩ := h2 s hsp
          have hroot2 : getRootReg s = getRootReg r := by simpa using hroot
          have : getRootReg r ∈ m.map Prod.fst := by
            rw [← hroot2, ← hk2]
            exact List.mem_map.mpr ⟨kv2, hkv2, rfl⟩
          exact absurd this hnk
        · have hsr2 : s = r := by simpa using hsr
          subst hsr2
          simp
      · rcases List.mem_append.mp hs with hsp | hsr
        · exact h3 kv hin s hsp hroot
        · have hsr2 : s = r := by simpa using hsr
          subst hsr2
          have : getRootReg s ∈ m.map Prod.fst := by
            rw [hroot]
            exact List.mem_map.mpr ⟨kv, hin, rfl⟩
          exact absurd this hnk

theorem buildRegMap_inv (l : List Reg) :
    ∀ (m : List (Reg × Reg)) (processed : List Reg),
      (∀ kv ∈ m, getRootReg kv.2 = kv.1
          ∧ ∃ s ∈ processed, kv.2 = remapReg s ∧ getRootReg s = kv.1) →
      (∀ s ∈ processed, ∃ kv ∈ m, kv.1 = getRootReg s) →
      (∀ kv ∈ m, ∀ s ∈ processed,
          getRootReg s = kv.1 → regWidth (remapReg s) ≤ regWidth kv.2) →
      KeysNodup m →
      (∀ kv ∈ l.foldl regMapStep m, getRootReg kv.2 = kv.1
          ∧ ∃ s ∈ processed ++ l, kv.2 = remapReg s ∧ getRootReg s = kv.1)
        ∧ (∀ s ∈ processed ++ l, ∃ kv ∈ l.foldl regMapStep m, kv.1 = getRootReg s)
        ∧ (∀ kv ∈ l.foldl regMapStep m, ∀ s ∈ processed ++ l,
            getRootReg s = kv.1 → regWidth (remapReg s) ≤ regWidth kv.2)
        ∧ KeysNodup (l.foldl regMapStep m) := by
  induction l with
  | nil =>
    intro m processed h1 h2 h3 h4
    simp only [List.foldl_nil, List.append_nil]
    exact ⟨h1, h2, h3, h4⟩
  | cons r rs ih =>
    intro m processed h1 h2 h3 h4
    obtain ⟨g1, g2, g3, g4⟩ := regMapStep_inv h1 h2 h3 h4
    have := ih (regMapStep m r) (processed ++ [r]) g1 g2 g3 g4
    rw [List.foldl_cons]
    simpa [List.append_assoc] using this

theorem mem_valuesFold (kvs : List (Reg × Reg)) :
    ∀ (acc : List Reg) (x : Reg),
      x ∈ kvs.foldl (fun acc kv => insertSet kv.2 acc) acc
        ↔ x ∈ acc ∨ ∃ kv ∈ kvs, kv.2 = x := by
  induction kvs with
  | nil => simp
  | cons kv rest ih =>
    intro acc x
    rw [List.foldl_cons, ih, exists_mem_cons, mem_insertSet]
    constructor
    · rintro ((he | h) | h)
      · exact Or.inr (Or.inl he.symm)
      · exact Or.inl h
      · exact Or.inr (Or.inr h)
    · rintro (h | (he | h))
      · exact Or.inl (Or.inr h)
      · exact Or.inl (Or.inl he.symm)
      · exact Or.inr h

theorem mem_getRegsRead_char {instr : Instr} {x : Reg} :
    x ∈ getRegsRead instr ↔ ∃ kv ∈ buildRegMap (collectRegsRead instr), kv.2 = x := by
  unfold getRegsRead
  rw [mem_sortRegs, mem_valuesFold]
  simp

theorem buildRegMap_spec (instr : Instr) :
    (∀ kv ∈ buildRegMap (collectRegsRead instr), getRootReg kv.2 = kv.1
        ∧ ∃ s ∈ collectRegsRead instr, kv.2 = remapReg s ∧ getRootReg s = kv.1)
      ∧ (∀ s ∈ collectRegsRead instr,
          ∃ kv ∈ buildRegMap (collectRegsRead instr), kv.1 = getRootReg s)
      ∧ (∀ kv ∈ buildRegMap (collectRegsRead instr), ∀ s ∈ collectRegsRead instr,
          getRootReg s = kv.1 → regWidth (remapReg s) ≤ regWidth kv.2)
      ∧ KeysNodup (buildRegMap (collectRegsRead instr)) := by
  have := buildRegMap_inv (collectRegsRead instr) [] []
    (by simp) (by simp) (by simp) (by simp [KeysNodup])
  simpa [buildRegMap] using this

/-- C3 counterexample: the decoder reports ADD RAX, RBX with a hidden RFLAGS
register operand; getRegsRead keeps the RFLAGS alias because the collection
loop applies no filtering to register operands (only memory base and index
registers are filtered), contradicting the claim that IP and the FLAGS
aliases are excluded. -/
theorem getRegsRead_filter_cex :
    getRegsRead cexAddInstr = [Reg.RAX, Reg.RBX, Reg.RFLAGS]
      ∧ Reg.RFLAGS ∈ getRegsRead cexAddInstr
      ∧ isRegFiltered Reg.RFLAGS = true
      ∧ (cexAddInstr.op 2).type = OperandType.register
      ∧ (cexAddInstr.op 2).reg = Reg.RFLAGS := by
  decide

/-- C3 amended: getRegsRead keeps one representative per root register among
all register operands (with no IP/FLAGS exclusion there) plus the unfiltered
memory base and index registers; the representative is the remapped alias
(AH/BH/CH/DH promoted to AX/BX/CX/DX) of largest width for that root, and the
result is ordered by register width descending. -/
theorem getRegsRead_amended (instr : Instr) :
    (∀ r ∈ getRegsRead instr, ∃ s ∈ collectRegsRead instr, r = remapReg s
        ∧ getRootReg r = getRootReg s
        ∧ ∀ t ∈ collectRegsRead instr,
            getRootReg t = getRootReg s → regWidth (remapReg t) ≤ regWidth r)
      ∧ (∀ s ∈ collectRegsRead instr,
          ∃ r ∈ getRegsRead instr, getRootReg r = getRootReg s)
      ∧ (∀ r1 ∈ getRegsRead instr, ∀ r2 ∈ getRegsRead instr,
          getRootReg r1 = getRootReg r2 → r1 = r2)
      ∧ (getRegsRead instr).Pairwise (fun a b => regWidth b ≤ regWidth a)
      ∧ (∀ x : Reg, x ∈ collectRegsRead instr ↔ ∃ op ∈ instr.opList, readCollects op x) := by
  obtain ⟨inv1, inv2, inv3, inv4⟩ := buildRegMap_spec instr
  refine ⟨?_, ?_, ?_, ?_, fun x => mem_collectRegsRead⟩
  · intro r hr
    obtain ⟨kv, hkv, hval⟩ := mem_getRegsRead_char.mp hr
    obtain ⟨hroot, s, hs, hrem, hrs⟩ := inv1 kv hkv
    subst hval
    refine ⟨s, hs, hrem, by rw [hroot, hrs], ?_⟩
    intro t ht htr
    exact inv3 kv hkv t ht (by rw [htr, hrs])
  · intro s hs
    obtain ⟨kv, hkv, hk⟩ := inv2 s hs
    obtain ⟨hroot, _⟩ := inv1 kv hkv
    exact ⟨kv.2, mem_getRegsRead_char.mpr ⟨kv, hkv, rfl⟩, by rw [hroot, hk]⟩
  · intro r1 hr1 r2 hr2 hroots
    obtain ⟨kv1, hkv1, hv1⟩ := mem_getRegsRead_char.mp hr1
    obtain ⟨kv2, hkv2, hv2⟩ := mem_getRegsRead_char.mp hr2
    obtain ⟨hroot1, _⟩ := inv1 kv1 hkv1
    obtain ⟨hroot2, _⟩ := inv1 kv2 hkv2
    have hkeq : kv1.1 = kv2.1 := by
      rw [← hroot1, ← hroot2, hv1, hv2, hroots]
    have := mem_unique_of_keysNodup inv4 hkv1 hkv2 hkeq
    rw [← hv1, ← hv2, this]
  · unfold getRegsRead
    exact pairwise_sortRegs

/-! Lemmas about clearOutput and the observed bit. -/

theorem getD_range_map (f : Nat → Nat) (n i : Nat) (h : i < n) :
    (((List.range n).map f).getD i 0) = f i := by
  simp [List.getD, List.getElem?_map, List.getElem?_range, h]

theorem shiftRight_255_and_one (k : Nat) (h : k < 8) : (255 >>> k) &&& 1 = 1 := by
  interval_cases k <;> decide

theorem testBit_flagsClearMask (b : Nat) (h : b < 32) :
    Nat.testBit flagsClearMask b
      = decide (b = 0 ∨ b = 2 ∨ b = 4 ∨ b = 6 ∨ b = 7 ∨ b = 11) := by
  interval_cases b <;> decide

theorem regWidth_mod_eight (r : Reg) : regWidth r % 8 = 0 := by
  revert r
  decide

theorem ctx_setRegBytes_same (ctx : Ctx) (r : Reg) (bytes : List Nat) :
    (ctx.setRegBytes r bytes).regs r = bytes := by
  unfold Ctx.setRegBytes
  simp

theorem clearOutput_eflags (tbi : TestBitInfo) (ctx : Ctx) :
    (clearOutput tbi ctx).eflags
      = if tbi.expectedBitValue = 0 then flagsClearMask else 0 := rfl

theorem clearOutput_regs (tbi : TestBitInfo) (ctx : Ctx)
    (h : isRegFiltered tbi.reg = false) :
    (clearOutput tbi ctx).regs (getRootReg tbi.reg)
      = (List.range (regWidth (getRootReg tbi.reg) / 8)).map (fun i =>
          if getRegOffset tbi.reg ≤ i ∧ i < getRegOffset tbi.reg + regWidth tbi.reg / 8 then
            (if tbi.expectedBitValue = 0 then 255 else 0)
          else 0) := by
  unfold clearOutput
  rw [if_pos (show ¬ isRegFiltered tbi.reg = true by simp [h])]
  exact ctx_setRegBytes_same ctx _ _

theorem observedBit_clearOutput (tbi : TestBitInfo) (ctx : Ctx)
    (hreg : isRegFiltered tbi.reg = false) (hbit : tbi.bitPos < regWidth tbi.reg)
    (hexp : tbi.expectedBitValue ≤ 1) :
    observedBit (clearOutput tbi ctx) tbi.reg tbi.bitPos = 1 - tbi.expectedBitValue := by
  have hfit := subreg_fits tbi.reg hreg
  have hdvd : regWidth tbi.reg % 8 = 0 := regWidth_mod_eight tbi.reg
  have hbyte : tbi.bitPos / 8 < regWidth tbi.reg / 8 := by
    omega
  have hidx : getRegOffset tbi.reg + tbi.bitPos / 8 < regWidth (getRootReg tbi.reg) / 8 := by
    omega
  unfold observedBit
  show ((clearOutput tbi ctx).regs (getRootReg tbi.reg)).getD
      (getRegOffset tbi.reg + tbi.bitPos / 8) 0 >>> (tbi.bitPos % 8) &&& 1
    = 1 - tbi.expectedBitValue
  rw [clearOutput_regs tbi ctx hreg]
  rw [getD_range_map _ _ _ hidx]
  rw [if_pos ⟨Nat.le_add_right _ _, by omega⟩]
  have hmod : tbi.bitPos % 8 < 8 := Nat.mod_lt _ (by norm_num)
  rcases Nat.le_one_iff_eq_zero_or_eq_one.mp hexp with he | he
  · rw [he, if_pos rfl]
    rw [shiftRight_255_and_one _ hmod]
  · rw [he, if_neg (by norm_num)]
    simp

/-- C1 counterexample: the DF expect-0 target produced for a CLD shaped
instruction (set_0 mask containing bit 10) is executed by the search loop,
and after clearOutput the EFLAGS bit 10 is 0, which agrees with the expected
value instead of disagreeing: the six-flag reset mask only covers
CF, PF, AF, ZF, SF and OF. -/
theorem clearOutput_flags_agree_cex :
    tbiDF ∈ generateTestMatrix cexCldInstr
      ∧ tbiDF.expectedBitValue = 0
      ∧ Nat.testBit (clearOutput tbiDF ctx0).eflags tbiDF.bitPos = false := by
  decide

/-- C1 amended: after clearOutput and before input staging, a register
target's observed bit (read at the sub-register byte offset inside the root)
equals 1 - expected_value; EFLAGS is set to CF, PF, AF, ZF, SF, OF combined
when expected_value = 0 and to 0 when expected_value = 1, so the targeted
EFLAGS bit disagrees with the target whenever expected_value = 1, and for
expected_value = 0 exactly when bit_pos lies in the six-flag set
0, 2, 4, 6, 7, 11. -/
theorem clearOutput_amended (tbi : TestBitInfo) (ctx : Ctx) :
    (isRegFiltered tbi.reg = false → tbi.bitPos < regWidth tbi.reg →
        tbi.expectedBitValue ≤ 1 →
        observedBit (clearOutput tbi ctx) tbi.reg tbi.bitPos = 1 - tbi.expectedBitValue)
      ∧ ((clearOutput tbi ctx).eflags
          = if tbi.expectedBitValue = 0 then flagsClearMask else 0)
      ∧ (tbi.expectedBitValue ≠ 0 →
          Nat.testBit (clearOutput tbi ctx).eflags tbi.bitPos = false)
      ∧ (tbi.expectedBitValue = 0 → tbi.bitPos < 32 →
          Nat.testBit (clearOutput tbi ctx).eflags tbi.bitPos
            = decide (tbi.bitPos = 0 ∨ tbi.bitPos = 2 ∨ tbi.bitPos = 4 ∨ tbi.bitPos = 6
                ∨ tbi.bitPos = 7 ∨ tbi.bitPos = 11)) := by
  refine ⟨observedBit_clearOutput tbi ctx, clearOutput_eflags tbi ctx, ?_, ?_⟩
  · intro hne
    rw [clearOutput_eflags, if_neg hne]
    simp
  · intro hz hlt
    rw [clearOutput_eflags, if_pos hz]
    exact testBit_flagsClearMask _ hlt

/-- C1 amended witness: a concrete register target (bit 3 of AL, expect 0)
observes 1 after the reset, and a concrete FLAGS expect-1 target observes a
cleared bit. -/
theorem clearOutput_amended_witness :
    observedBit (clearOutput ⟨.None, .AL, 3, 0⟩ ctx0) Reg.AL 3 = 1 - 0
      ∧ Nat.testBit (clearOutput ⟨.None, .FLAGS, 6, 1⟩ ctx0).eflags 6 = false := by
  constructor
  · exact (clearOutput_amended ⟨.None, .AL, 3, 0⟩ ctx0).1 (by decide) (by decide) (by decide)
  · exact (clearOutput_amended ⟨.None, .FLAGS, 6, 1⟩ ctx0).2.2.1 (by decide)

/-! Generator advancement (C5) and flag randomization (C10). -/

/-- C5 counterexample: with two generators that both report a rollover, the
advancement loop on iteration 0 still advances both (the claim predicts it
stops after the first rollover); and on iteration 2, where
(iteration + 1) mod 3 = 0, two generators that never roll over are still both
advanced (the claim predicts an early stop regardless of rollover). -/
theorem advanceGenList_cex :
    advanceGenList cexAdvTrue 0 [0, 0] = [1, 1]
      ∧ advanceUntilRollover cexAdvTrue [0, 0] = [1, 0]
      ∧ (0 + 1) % 3 ≠ 0
      ∧ advanceGenList cexAdvFalse 2 [0, 0] = [1, 1]
      ∧ (2 + 1) % 3 = 0 := by
  decide

/-- C5 amended: the loop advances every generator in order; only when
(iteration + 1) mod 3 = 0 does it stop right after the first generator that
reports a rollover, leaving the rest unadvanced.  Rollover alone never stops
the advancement on other iterations. -/
theorem advanceGenList_amended {γ : Type} (adv : γ → γ × Bool) (iteration : Nat)
    (l : List γ) :
    advanceGenList adv iteration l
      = if (iteration + 1) % 3 = 0 then advanceUntilRollover adv l
        else advanceAllGens adv l := by
  induction l with
  | nil =>
    by_cases h3 : (iteration + 1) % 3 = 0 <;>
      simp [advanceGenList, advanceUntilRollover, advanceAllGens, h3]
  | cons g rest ih =>
    by_cases h3 : (iteration + 1) % 3 = 0
    · rw [if_pos h3]
      unfold advanceGenList advanceUntilRollover
      by_cases hr : (adv g).2
      · rw [if_pos ⟨hr, h3⟩, if_pos hr]
      · rw [if_neg (fun hc => hr hc.1), if_neg hr, ih, if_pos h3]
    · rw [if_neg h3]
      unfold advanceGenList advanceAllGens
      rw [if_neg (fun hc => h3 hc.2), ih, if_neg h3]
      rw [List.map_cons]
      rfl

theorem testBit8_and_maskTF (x : Nat) : Nat.testBit (x &&& 0xFFFFFEFF) 8 = false := by
  rw [Nat.testBit_land]
  have h : Nat.testBit 0xFFFFFEFF 8 = false := by decide
  rw [h]
  simp

/-- C10: the EFLAGS value advanceInputs writes to the context always has the
trap flag (bit 8) cleared, and when the instruction tests at least one flag
the written value is exactly the recorded input_flags with TF masked out (the
recorded value itself is stored before the mask is applied). -/
theorem advanceInputs_flags {γ : Type} (C : SearchConfig γ) (instr : Instr)
    (iteration : Nat) (entry : TestCaseEntry) (st : SearchState γ) :
    Nat.testBit (advanceInputs C instr iteration entry st).2.ctx.eflags 8 = false
      ∧ (getFlagsRead instr ≠ 0 →
          ∃ f, (advanceInputs C instr iteration entry st).1.inputFlags = some f
            ∧ (advanceInputs C instr iteration entry st).2.ctx.eflags
              = f &&& 0xFFFFFEFF) := by
  by_cases h : getFlagsRead instr ≠ 0
  · constructor
    · simp only [advanceInputs, if_pos h]
      exact testBit8_and_maskTF _
    · intro _
      refine ⟨(drawFlags C.rnd (getFlagsRead instr) st.rndIdx).1, ?_, ?_⟩
      · simp only [advanceInputs, if_pos h]
      · simp only [advanceInputs, if_pos h]
  · constructor
    · simp only [advanceInputs, if_neg h]
      exact testBit8_and_maskTF _
    · intro hc
      exact absurd hc h

/-- C10 witness: for an instruction that tests exactly TF, with a PRNG that
always draws 1, the recorded input_flags is 256 (TF set, stored before the
mask) while the written EFLAGS value is 0 (TF cleared). -/
theorem advanceInputs_flags_witness :
    Nat.testBit (advanceInputs oneCfg wTf8Instr 0 {} st0).2.ctx.eflags 8 = false
      ∧ (advanceInputs oneCfg wTf8Instr 0 {} st0).1.inputFlags = some 256
      ∧ (advanceInputs oneCfg wTf8Instr 0 {} st0).2.ctx.eflags = 0 := by
  refine ⟨(advanceInputs_flags oneCfg wTf8Instr 0 {} st0).1, by decide, by decide⟩

/-! Membership structure of the test matrix. -/

theorem mem_ifSingleton {α : Type} {a b : α} {c : Prop} [Decidable c] :
    a ∈ (if c then [b] else []) ↔ c ∧ a = b := by
  by_cases h : c <;> simp [h]

theorem bitTargetsAt_fields {instr : Instr} {raz : Bool} {reg : Reg} {b : Nat}
    {t : TestBitInfo} (h : t ∈ bitTargetsAt instr raz reg b) :
    t.reg = reg ∧ t.bitPos = b ∧ t.exceptionType = .None ∧ t.expectedBitValue ≤ 1 := by
  unfold bitTargetsAt at h
  rw [List.mem_append, mem_ifSingleton, mem_ifSingleton] at h
  rcases h with ⟨_, he⟩ | ⟨_, he⟩ <;> subst he <;> exact ⟨rfl, rfl, rfl, by norm_num⟩

theorem mem_bitTargets {instr : Instr} {raz : Bool} {reg : Reg} {t : TestBitInfo} :
    t ∈ bitTargets instr raz reg
      ↔ t.bitPos < regWidth reg ∧ t ∈ bitTargetsAt instr raz reg t.bitPos := by
  unfold bitTargets
  rw [List.mem_flatMap]
  constructor
  · rintro ⟨b, hb, hmem⟩
    have hfields := bitTargetsAt_fields hmem
    rw [List.mem_range] at hb
    rw [hfields.2.1]
    exact ⟨hb, hmem⟩
  · rintro ⟨hb, hmem⟩
    exact ⟨t.bitPos, List.mem_range.mpr hb, hmem⟩

theorem regFold_mem (instr : Instr) (l : List Reg) :
    ∀ (acc : List TestBitInfo) (raz : Bool) (t : TestBitInfo),
      t ∈ (l.foldl (regStep instr) (acc, raz)).1
        ↔ t ∈ acc ∨ ∃ r ∈ l, t ∈ bitTargets instr (regRaz instr raz r) r := by
  induction l with
  | nil => simp
  | cons r rs ih =>
    intro acc raz t
    rw [List.foldl_cons, exists_mem_cons]
    have hstep : regStep instr (acc, raz) r
        = (acc ++ bitTargets instr (regRaz instr raz r) r, regRaz instr raz r) := rfl
    rw [hstep, ih, List.mem_append]
    have hraz : ∀ r2, regRaz instr (regRaz instr raz r) r2 = regRaz instr raz r2 := by
      intro r2
      unfold regRaz
      by_cases h : instr.mnemonic = Mnemonic.BSWAP <;> simp [h]
    constructor
    · rintro ((h | h) | ⟨r2, hr2, hmem⟩)
      · exact Or.inl h
      · exact Or.inr (Or.inl h)
      · rw [hraz r2] at hmem
        exact Or.inr (Or.inr ⟨r2, hr2, hmem⟩)
    · rintro (h | (h | ⟨r2, hr2, hmem⟩))
      · exact Or.inl (Or.inl h)
      · exact Or.inl (Or.inr h)
      · rw [← hraz r2] at hmem
        exact Or.inr ⟨r2, hr2, hmem⟩

theorem mem_regMatrixPart {instr : Instr} {t : TestBitInfo} :
    t ∈ (regMatrixPart instr).1
      ↔ ∃ r ∈ getRegsModified instr,
          t ∈ bitTargets instr (regRaz instr (semResultAlwaysZero0 instr) r) r := by
  unfold regMatrixPart
  rw [regFold_mem]
  simp

theorem mem_flagTargets {instr : Instr} {raz : Bool} {i : Nat} {t : TestBitInfo} :
    t ∈ flagTargets instr raz i
      ↔ ((¬ semInputIsImmediate instr ∧ getFlagsModified instr &&& (1 <<< i) ≠ 0)
          ∧ ((flagTestZero raz (1 <<< i) = true ∧ t = ⟨.None, .FLAGS, i, 0⟩)
            ∨ (flagTestOne (semRegDestSrcSame instr) (semRightInputZero instr) raz
                  (1 <<< i) = true
                ∧ t = ⟨.None, .FLAGS, i, 1⟩)))
        ∨ (getFlagsSet0 instr &&& (1 <<< i) ≠ 0 ∧ t = ⟨.None, .FLAGS, i, 0⟩)
        ∨ (getFlagsSet1 instr &&& (1 <<< i) ≠ 0 ∧ t = ⟨.None, .FLAGS, i, 1⟩) := by
  simp only [flagTargets]
  by_cases hmod : ¬ semInputIsImmediate instr ∧ getFlagsModified instr &&& (1 <<< i) ≠ 0
  · rw [if_pos hmod]
    rw [List.mem_append, List.mem_append, List.mem_append,
      mem_ifSingleton, mem_ifSingleton, mem_ifSingleton, mem_ifSingleton]
    constructor
    · rintro (((h | h) | h) | h)
      · exact Or.inl ⟨hmod, Or.inl h⟩
      · exact Or.inl ⟨hmod, Or.inr h⟩
      · exact Or.inr (Or.inl h)
      · exact Or.inr (Or.inr h)
    · rintro (⟨_, (h | h)⟩ | h | h)
      · exact Or.inl (Or.inl (Or.inl h))
      · exact Or.inl (Or.inl (Or.inr h))
      · exact Or.inl (Or.inr h)
      · exact Or.inr h
  · rw [if_neg hmod]
    rw [List.mem_append, List.mem_append, mem_ifSingleton, mem_ifSingleton]
    constructor
    · rintro ((h | h) | h)
      · exact absurd h (List.not_mem_nil t)
      · exact Or.inr (Or.inl h)
      · exact Or.inr (Or.inr h)
    · rintro (⟨hc, _⟩ | h | h)
      · exact absurd hc hmod
      · exact Or.inl (Or.inr h)
      · exact Or.inr h

theorem flagTargets_fields {instr : Instr} {raz : Bool} {i : Nat} {t : TestBitInfo}
    (h : t ∈ flagTargets instr raz i) :
    t.reg = Reg.FLAGS ∧ t.bitPos = i ∧ t.exceptionType = .None := by
  rcases mem_flagTargets.mp h with ⟨_, (⟨_, he⟩ | ⟨_, he⟩)⟩ | ⟨_, he⟩ | ⟨_, he⟩ <;>
    subst he <;> exact ⟨rfl, rfl, rfl⟩

theorem mem_matrix_flags {instr : Instr} {i v : Nat} (hi : i < 32) :
    (⟨.None, .FLAGS, i, v⟩ : TestBitInfo) ∈ generateTestMatrix instr
      ↔ (⟨.None, .FLAGS, i, v⟩ : TestBitInfo)
          ∈ flagTargets instr (semRazFinal instr) i := by
  unfold generateTestMatrix
  rw [List.mem_append, List.mem_append]
  constructor
  · rintro ((h | h) | h)
    · obtain ⟨r, hr, hmem⟩ := mem_regMatrixPart.mp h
      have hfil := getRegsModified_not_filtered hr
      have hreg := (bitTargetsAt_fields (mem_bitTargets.mp hmem).2).1
      rw [show (⟨.None, .FLAGS, i, v⟩ : TestBitInfo).reg = Reg.FLAGS from rfl] at hreg
      rw [← hreg] at hfil
      exact absurd hfil (by decide)
    · obtain ⟨j, _, hmem⟩ := List.mem_flatMap.mp h
      have hj := (flagTargets_fields hmem).2.1
      rw [show (⟨.None, .FLAGS, i, v⟩ : TestBitInfo).bitPos = i from rfl] at hj
      subst hj
      exact hmem
    · obtain ⟨e, _, he⟩ := List.mem_map.mp h
      cases he
  · intro h
    exact Or.inl (Or.inr (List.mem_flatMap.mpr ⟨i, List.mem_range.mpr hi, h⟩))

theorem mem_matrix_reg {instr : Instr} {t : TestBitInfo}
    (hfil : isRegFiltered t.reg = false) :
    t ∈ generateTestMatrix instr ↔ t ∈ (regMatrixPart instr).1 := by
  unfold generateTestMatrix
  rw [List.mem_append, List.mem_append]
  constructor
  · rintro ((h | h) | h)
    · exact h
    · obtain ⟨j, _, hmem⟩ := List.mem_flatMap.mp h
      have := (flagTargets_fields hmem).1
      rw [this] at hfil
      exact absurd hfil (by decide)
    · obtain ⟨e, _, he⟩ := List.mem_map.mp h
      rw [← he] at hfil
      simp [isRegFiltered] at hfil
  · intro h
    exact Or.inl (Or.inl h)

/-! The flag suppression conditions in claim form. -/

theorem flagTestZero_iff (raz : Bool) (flag : Nat) :
    flagTestZero raz flag = true
      ↔ ¬((flag = cpuflagZF ∨ flag = cpuflagPF) ∧ raz = true) := by
  unfold flagTestZero
  by_cases h1 : flag = cpuflagZF <;> by_cases h2 : flag = cpuflagPF <;>
    simp_all [cpuflagZF, cpuflagPF]

theorem flagTestOne_iff (sameReg rightZero raz : Bool) (flag : Nat) :
    flagTestOne sameReg rightZero raz flag = true
      ↔ (¬((flag = cpuflagCF ∨ flag = cpuflagAF) ∧ (raz = true ∨ rightZero = true))
          ∧ ¬(flag = cpuflagOF ∧ (sameReg = true ∨ rightZero = true))
          ∧ ¬(flag = cpuflagSF ∧ raz = true)) := by
  unfold flagTestOne
  by_cases h1 : flag = cpuflagCF <;> by_cases h2 : flag = cpuflagOF <;>
    by_cases h3 : flag = cpuflagAF <;> by_cases h4 : flag = cpuflagSF <;>
    simp_all [cpuflagCF, cpuflagOF, cpuflagAF, cpuflagSF]

theorem mem_flagTargets_zero {instr : Instr} {raz : Bool} {i : Nat} :
    (⟨.None, .FLAGS, i, 0⟩ : TestBitInfo) ∈ flagTargets instr raz i
      ↔ ((¬ semInputIsImmediate instr ∧ getFlagsModified instr &&& (1 <<< i) ≠ 0)
            ∧ flagTestZero raz (1 <<< i) = true)
        ∨ getFlagsSet0 instr &&& (1 <<< i) ≠ 0 := by
  rw [mem_flagTargets]
  have hne : (⟨.None, .FLAGS, i, 0⟩ : TestBitInfo) ≠ ⟨.None, .FLAGS, i, 1⟩ := by
    simp [TestBitInfo.mk.injEq]
  constructor
  · rintro (⟨hc, (⟨hz, _⟩ | ⟨_, habs⟩)⟩ | ⟨h0, _⟩ | ⟨_, habs⟩)
    · exact Or.inl ⟨hc, hz⟩
    · exact absurd habs hne
    · exact Or.inr h0
    · exact absurd habs hne
  · rintro (⟨hc, hz⟩ | h0)
    · exact Or.inl ⟨hc, Or.inl ⟨hz, rfl⟩⟩
    · exact Or.inr (Or.inl ⟨h0, rfl⟩)

theorem mem_flagTargets_one {instr : Instr} {raz : Bool} {i : Nat} :
    (⟨.None, .FLAGS, i, 1⟩ : TestBitInfo) ∈ flagTargets instr raz i
      ↔ ((¬ semInputIsImmediate instr ∧ getFlagsModified instr &&& (1 <<< i) ≠ 0)
            ∧ flagTestOne (semRegDestSrcSame instr) (semRightInputZero instr) raz
                (1 <<< i) = true)
        ∨ getFlagsSet1 instr &&& (1 <<< i) ≠ 0 := by
  rw [mem_flagTargets]
  have hne : (⟨.None, .FLAGS, i, 1⟩ : TestBitInfo) ≠ ⟨.None, .FLAGS, i, 0⟩ := by
    simp [TestBitInfo.mk.injEq]
  constructor
  · rintro (⟨hc, (⟨_, habs⟩ | ⟨ho, _⟩)⟩ | ⟨_, habs⟩ | ⟨h1, _⟩)
    · exact absurd habs hne
    · exact Or.inl ⟨hc, ho⟩
    · exact absurd habs hne
    · exact Or.inr h1
  · rintro (⟨hc, ho⟩ | h1)
    · exact Or.inl ⟨hc, Or.inr ⟨ho, rfl⟩⟩
    · exact Or.inr (Or.inr ⟨h1, rfl⟩)

theorem semImm_of_not_imm {instr : Instr}
    (hwf : instr.operands.length ≤ instr.operandCount)
    (h : isInputFromImmediate instr = false) :
    semInputIsImmediate instr = false := by
  unfold semInputIsImmediate
  by_cases hc : 2 ≤ instr.operandCount
  · have hmem : instr.op 1 ∈ instr.opList := by
      unfold Instr.opList
      exact List.mem_map.mpr ⟨1, List.mem_range.mpr (by omega), rfl⟩
    unfold isInputFromImmediate at h
    rw [List.any_eq_false] at h
    have := h _ hmem
    simpa using this
  · have hdef : instr.op 1 = {} := by
      unfold Instr.op
      apply List.getD_eq_default
      omega
    rw [hdef]
    simp [Operand.type]

/-- C7: the flag section of the test matrix.  When no operand is an immediate
(under the decoder wellformedness hypothesis that the operand array has no
entries beyond operand_count) and the modified mask contains bit i, the
expect-0 target is in the matrix unless ZF/PF suppression applies (and the
set_0 mask can independently add it), and the expect-1 target is in the
matrix unless the CF/AF, OF or SF suppression applies (with the set_1 mask
independent); independently of the immediate condition, a set_0 bit always
emits the expect-0 target and a set_1 bit the expect-1 target. -/
theorem flag_matrix_spec (instr : Instr) (i : Nat)
    (hwf : instr.operands.length ≤ instr.operandCount) (hi : i < 32) :
    (isInputFromImmediate instr = false →
        getFlagsModified instr &&& (1 <<< i) ≠ 0 →
        (((⟨.None, .FLAGS, i, 0⟩ : TestBitInfo) ∈ generateTestMatrix instr
            ↔ (¬((1 <<< i = cpuflagZF ∨ 1 <<< i = cpuflagPF)
                  ∧ semRazFinal instr = true)
              ∨ getFlagsSet0 instr &&& (1 <<< i) ≠ 0))
          ∧ ((⟨.None, .FLAGS, i, 1⟩ : TestBitInfo) ∈ generateTestMatrix instr
            ↔ ((¬((1 <<< i = cpuflagCF ∨ 1 <<< i = cpuflagAF)
                    ∧ (semRazFinal instr = true ∨ semRightInputZero instr = true))
                ∧ ¬(1 <<< i = cpuflagOF
                    ∧ (semRegDestSrcSame instr = true ∨ semRightInputZero instr = true))
                ∧ ¬(1 <<< i = cpuflagSF ∧ semRazFinal instr = true))
              ∨ getFlagsSet1 instr &&& (1 <<< i) ≠ 0))))
      ∧ (getFlagsSet0 instr &&& (1 <<< i) ≠ 0 →
          (⟨.None, .FLAGS, i, 0⟩ : TestBitInfo) ∈ generateTestMatrix instr)
      ∧ (getFlagsSet1 instr &&& (1 <<< i) ≠ 0 →
          (⟨.None, .FLAGS, i, 1⟩ : TestBitInfo) ∈ generateTestMatrix instr) := by
  refine ⟨?_, ?_, ?_⟩
  · intro hnoimm hmod
    have hsem : semInputIsImmediate instr = false := semImm_of_not_imm hwf hnoimm
    constructor
    · rw [mem_matrix_flags hi, mem_flagTargets_zero, flagTestZero_iff]
      constructor
      · rintro (⟨_, hz⟩ | h0)
        · exact Or.inl hz
        · exact Or.inr h0
      · rintro (hz | h0)
        · exact Or.inl ⟨⟨by simp [hsem], hmod⟩, hz⟩
        · exact Or.inr h0
    · rw [mem_matrix_flags hi, mem_flagTargets_one, flagTestOne_iff]
      constructor
      · rintro (⟨_, ho⟩ | h1)
        · exact Or.inl ho
        · exact Or.inr h1
      · rintro (ho | h1)
        · exact Or.inl ⟨⟨by simp [hsem], hmod⟩, ho⟩
        · exact Or.inr h1
  · intro h0
    rw [mem_matrix_flags hi, mem_flagTargets_zero]
    exact Or.inr h0
  · intro h1
    rw [mem_matrix_flags hi, mem_flagTargets_one]
    exact Or.inr h1

/-- C7 witness: for the concrete instruction that modifies only ZF (bit 6,
no operands, no immediate), the matrix contains both ZF polarities. -/
theorem flag_matrix_spec_witness :
    (⟨.None, .FLAGS, 6, 0⟩ : TestBitInfo) ∈ generateTestMatrix wFlagInstr
      ∧ (⟨.None, .FLAGS, 6, 1⟩ : TestBitInfo) ∈ generateTestMatrix wFlagInstr := by
  have h := (flag_matrix_spec wFlagInstr 6 (by decide) (by decide)).1
    (by decide) (by decide)
  exact ⟨h.1.mpr (Or.inl (by decide)), h.2.mpr (Or.inl (by decide))⟩

/-! The BTR immediate specialization (C8). -/

theorem bitTargetsAt_btr (instr : Instr) (raz : Bool) (reg : Reg) (b : Nat)
    (hM : instr.mnemonic = Mnemonic.BTR) (hImm : semInputIsImmediate instr = true) :
    bitTargetsAt instr raz reg b
      = [⟨.None, reg, b, 0⟩]
        ++ (if (instr.op 1).imm.u % instr.operandWidth ≠ b then [⟨.None, reg, b, 1⟩]
            else []) := by
  simp [bitTargetsAt, hM, hImm, semFirstBitAlwaysZero]

/-- C8: for BTR with an immediate second operand, every destination bit
position gets the expect-0 target, and the expect-1 target is in the matrix
exactly when (imm mod operand_width) differs from the bit position. -/
theorem btr_matrix_spec (instr : Instr) (hM : instr.mnemonic = Mnemonic.BTR)
    (hImm : semInputIsImmediate instr = true) (reg : Reg)
    (hreg : reg ∈ getRegsModified instr) (b : Nat) (hb : b < regWidth reg) :
    (⟨.None, reg, b, 0⟩ : TestBitInfo) ∈ generateTestMatrix instr
      ∧ ((⟨.None, reg, b, 1⟩ : TestBitInfo) ∈ generateTestMatrix instr
          ↔ (instr.op 1).imm.u % instr.operandWidth ≠ b) := by
  have hfil : isRegFiltered reg = false := getRegsModified_not_filtered hreg
  constructor
  · rw [mem_matrix_reg (t := ⟨.None, reg, b, 0⟩) hfil, mem_regMatrixPart]
    refine ⟨reg, hreg, ?_⟩
    rw [mem_bitTargets]
    refine ⟨hb, ?_⟩
    rw [show (⟨.None, reg, b, 0⟩ : TestBitInfo).bitPos = b from rfl]
    rw [bitTargetsAt_btr instr _ reg b hM hImm]
    simp
  · rw [mem_matrix_reg (t := ⟨.None, reg, b, 1⟩) hfil, mem_regMatrixPart]
    constructor
    · rintro ⟨r, hr, hmem⟩
      have hfields := bitTargetsAt_fields (mem_bitTargets.mp hmem).2
      have hrr : r = reg := by
        have := hfields.1
        simpa using this.symm
      subst hrr
      have hmem2 := (mem_bitTargets.mp hmem).2
      rw [show (⟨.None, r, b, 1⟩ : TestBitInfo).bitPos = b from rfl] at hmem2
      rw [bitTargetsAt_btr instr _ r b hM hImm] at hmem2
      rw [List.mem_append, mem_ifSingleton] at hmem2
      rcases hmem2 with h | ⟨hc, _⟩
      · simp [TestBitInfo.mk.injEq] at h
      · exact hc
    · intro hc
      refine ⟨reg, hreg, ?_⟩
      rw [mem_bitTargets]
      refine ⟨hb, ?_⟩
      rw [show (⟨.None, reg, b, 1⟩ : TestBitInfo).bitPos = b from rfl]
      rw [bitTargetsAt_btr instr _ reg b hM hImm]
      rw [List.mem_append, mem_ifSingleton]
      exact Or.inr ⟨hc, rfl⟩

/-- C8 witness: for BTR EAX, 5 the expect-0 target for bit 5 is in the matrix
and the expect-1 target for bit 5 is not (5 mod 32 = 5). -/
theorem btr_matrix_spec_witness :
    (⟨.None, .EAX, 5, 0⟩ : TestBitInfo) ∈ generateTestMatrix wBtrInstr
      ∧ (⟨.None, .EAX, 5, 1⟩ : TestBitInfo) ∉ generateTestMatrix wBtrInstr := by
  have h := btr_matrix_spec wBtrInstr (by decide) (by decide) Reg.EAX (by decide) 5
    (by decide)
  exact ⟨h.1, fun hmem => (h.2.mp hmem) (by decide)⟩

/-! Entry-shape invariants of the retry loop. -/

theorem stageInputs_fields {γ : Type} (C : SearchConfig γ) :
    ∀ (regs : List Reg) (gens : List γ) (entry : TestCaseEntry) (ctx : Ctx),
      (stageInputs C regs gens entry ctx).1.outputRegs = entry.outputRegs
        ∧ (stageInputs C regs gens entry ctx).1.outputFlags = entry.outputFlags
        ∧ (stageInputs C regs gens entry ctx).1.exceptionType = entry.exceptionType
        ∧ (stageInputs C regs gens entry ctx).1.inputFlags = entry.inputFlags := by
  intro regs
  induction regs with
  | nil => exact fun gens entry ctx => ⟨rfl, rfl, rfl, rfl⟩
  | cons r rest ih =>
    intro gens entry ctx
    by_cases hf : isRegFiltered r
    · simp only [stageInputs, if_pos hf]
      exact ih gens entry ctx
    · cases gens with
      | nil =>
        simp only [stageInputs, if_neg hf]
        exact ih [] entry ctx
      | cons g gs =>
        simp only [stageInputs, if_neg hf]
        have h := ih gs (stageOne C r g entry ctx).1 (stageOne C r g entry ctx).2
        exact ⟨h.1.trans rfl, h.2.1.trans rfl, h.2.2.1.trans rfl, h.2.2.2.trans rfl⟩

theorem advanceInputs_outputs {γ : Type} (C : SearchConfig γ) (instr : Instr)
    (iteration : Nat) (entry : TestCaseEntry) (st : SearchState γ) :
    (advanceInputs C instr iteration entry st).1.outputRegs = entry.outputRegs
      ∧ (advanceInputs C instr iteration entry st).1.outputFlags = entry.outputFlags
      ∧ (advanceInputs C instr iteration entry st).1.exceptionType = entry.exceptionType := by
  have hs := stageInputs_fields C (getRegsRead instr) st.gens entry (cleanseRegs instr st.ctx)
  by_cases h : getFlagsRead instr ≠ 0
  · simp only [advanceInputs, if_pos h]
    exact ⟨hs.1, hs.2.1, hs.2.2.1⟩
  · simp only [advanceInputs, if_neg h]
    exact ⟨hs.1, hs.2.1, hs.2.2.1⟩

theorem captureOutputRegs_fields (instr : Instr) (ctx : Ctx) :
    ∀ (entry : TestCaseEntry),
      (captureOutputRegs instr ctx entry).outputFlags = entry.outputFlags
        ∧ (captureOutputRegs instr ctx entry).exceptionType = entry.exceptionType := by
  unfold captureOutputRegs
  generalize getRegsModified instr = l
  induction l with
  | nil => exact fun entry => ⟨rfl, rfl⟩
  | cons r rest ih =>
    intro entry
    rw [List.foldl_cons]
    have h := ih { entry with
      outputRegs := storeReg entry.outputRegs (getRootReg r)
        ((List.range (regWidth (getRootReg r) / 8)).map
          (fun j => (ctx.regs (getRootReg r)).getD j 0)) }
    exact ⟨h.1.trans rfl, h.2.trans rfl⟩

theorem testBit9_and_maskIF (x : Nat) : Nat.testBit (x &&& 0xFFFFFDFF) 9 = false := by
  rw [Nat.testBit_land]
  have h : Nat.testBit 0xFFFFFDFF 9 = false := by decide
  rw [h]
  simp

theorem checkOutputs_spec (instr : Instr) (tbi : TestBitInfo) (entry : TestCaseEntry)
    (ctx : Ctx) :
    ((checkOutputs instr tbi entry ctx).1 = false →
        (checkOutputs instr tbi entry ctx).2 = entry)
      ∧ ((checkOutputs instr tbi entry ctx).1 = true →
          (checkOutputs instr tbi entry ctx).2.exceptionType = entry.exceptionType
            ∧ (getFlagsModified instr ≠ 0 →
                (checkOutputs instr tbi entry ctx).2.outputFlags
                  = some (ctx.eflags &&& 0xFFFFFDFF))
            ∧ (getFlagsModified instr = 0 →
                (checkOutputs instr tbi entry ctx).2.outputFlags = entry.outputFlags)) := by
  simp only [checkOutputs]
  by_cases hb : observedBit ctx tbi.reg tbi.bitPos ≠ tbi.expectedBitValue
  · rw [if_pos hb]
    refine ⟨fun _ => rfl, fun habs => ?_⟩
    simp at habs
  · rw [if_neg hb]
    by_cases hm : getFlagsModified instr ≠ 0
    · rw [if_pos hm]
      refine ⟨fun habs => by simp at habs, fun _ => ⟨?_, fun _ => rfl, fun hz => absurd hz hm⟩⟩
      exact (captureOutputRegs_fields instr ctx entry).2
    · rw [if_neg hm]
      refine ⟨fun habs => by simp at habs, fun _ => ⟨?_, fun hnz => by simp at hm hnz; omega, fun _ => ?_⟩⟩
      · exact (captureOutputRegs_fields instr ctx entry).2
      · exact (captureOutputRegs_fields instr ctx entry).1

theorem classifyStatus_shape (instr : Instr) (tbi : TestBitInfo) (entry : TestCaseEntry)
    (ctx : Ctx) (status : ExecStatus) (h2 : entry.outputFlags = none)
    (h3 : entry.exceptionType = none) :
    ((classifyStatus instr tbi entry ctx status).1 = StepOutcome.miss →
        (classifyStatus instr tbi entry ctx status).2 = entry)
      ∧ ((classifyStatus instr tbi entry ctx status).1 = StepOutcome.hit →
          ((classifyStatus instr tbi entry ctx status).2.exceptionType.isSome →
              (classifyStatus instr tbi entry ctx status).2.outputRegs = entry.outputRegs
                ∧ (classifyStatus instr tbi entry ctx status).2.outputFlags = none)
            ∧ ((classifyStatus instr tbi entry ctx status).2.exceptionType = none →
                (((classifyStatus instr tbi entry ctx status).2.outputFlags.isSome
                    ↔ getFlagsModified instr ≠ 0)
                  ∧ ∀ f, (classifyStatus instr tbi entry ctx status).2.outputFlags = some f →
                      Nat.testBit f 9 = false))) := by
  have hco := checkOutputs_spec instr tbi entry ctx
  by_cases hs : status = ExecStatus.Success
  · simp only [classifyStatus, if_pos hs]
    by_cases he : tbi.exceptionType = ExceptionType.None
    · rw [if_pos he]
      by_cases hr : (checkOutputs instr tbi entry ctx).1
      · rw [if_pos hr]
        have hcs := hco.2 hr
        refine ⟨fun habs => by simp at habs, fun _ => ⟨fun hsome => ?_, fun _ => ⟨?_, ?_⟩⟩⟩
        · rw [hcs.1, h3] at hsome
          simp at hsome
        · by_cases hm : getFlagsModified instr ≠ 0
          · rw [hcs.2.1 hm]
            simp [hm]
          · rw [hcs.2.2 (by omega), h2]
            simp
            omega
        · intro f hf
          by_cases hm : getFlagsModified instr ≠ 0
          · rw [hcs.2.1 hm] at hf
            have : f = ctx.eflags &&& 0xFFFFFDFF := by simpa using hf.symm
            rw [this]
            exact testBit9_and_maskIF _
          · rw [hcs.2.2 (by omega), h2] at hf
            cases hf
      · rw [if_neg hr]
        have hr2 : (checkOutputs instr tbi entry ctx).1 = false := by
          simpa using hr
        refine ⟨fun _ => hco.1 hr2, fun habs => by simp at habs⟩
    · rw [if_neg he]
      exact ⟨fun _ => rfl, fun habs => by simp at habs⟩
  · cases status with
    | Success => exact absurd rfl hs
    | ExceptionIntDivideError =>
      by_cases he : tbi.exceptionType = ExceptionType.DivideError
      · simp [classifyStatus, he, h2]
      · have he2 : ¬(ExceptionType.DivideError = tbi.exceptionType) := fun h => he h.symm
        simp [classifyStatus, he2, h2]
    | ExceptionIntOverflow =>
      by_cases he : tbi.exceptionType = ExceptionType.IntegerOverflow
      · simp [classifyStatus, he, h2]
      · have he2 : ¬(ExceptionType.IntegerOverflow = tbi.exceptionType) := fun h => he h.symm
        simp [classifyStatus, he2, h2]
    | IllegalInstruction =>
      by_cases he : tbi.exceptionType = ExceptionType.None
      · simp [classifyStatus, he, h2]
      · have he2 : ¬(ExceptionType.None = tbi.exceptionType) := fun h => he h.symm
        simp [classifyStatus, he2, h2]
    | OtherFailure =>
      by_cases he : tbi.exceptionType = ExceptionType.None
      · simp [classifyStatus, he, h2]
      · have he2 : ¬(ExceptionType.None = tbi.exceptionType) := fun h => he h.symm
        simp [classifyStatus, he2, h2]

theorem searchBody_shape {γ : Type} (C : SearchConfig γ) (instr : Instr)
    (tbi : TestBitInfo) (it : Nat) (entry : TestCaseEntry) (st : SearchState γ)
    (h1 : entry.outputRegs = []) (h2 : entry.outputFlags = none)
    (h3 : entry.exceptionType = none) :
    ((searchBody C instr tbi it entry st).1 = StepOutcome.miss →
        ((searchBody C instr tbi it entry st).2.1.outputRegs = []
          ∧ (searchBody C instr tbi it entry st).2.1.outputFlags = none
          ∧ (searchBody C instr tbi it entry st).2.1.exceptionType = none))
      ∧ ((searchBody C instr tbi it entry st).1 = StepOutcome.hit →
          (((searchBody C instr tbi it entry st).2.1.exceptionType.isSome →
              (searchBody C instr tbi it entry st).2.1.outputRegs = []
                ∧ (searchBody C instr tbi it entry st).2.1.outputFlags = none)
            ∧ ((searchBody C instr tbi it entry st).2.1.exceptionType = none →
                (((searchBody C instr tbi it entry st).2.1.outputFlags.isSome
                    ↔ getFlagsModified instr ≠ 0)
                  ∧ ∀ f, (searchBody C instr tbi it entry st).2.1.outputFlags = some f →
                      Nat.testBit f 9 = false)))) := by
  have hadv := advanceInputs_outputs C instr it entry
    { st with ctx := clearOutput tbi st.ctx }
  have ha1 : (advanceInputs C instr it entry
      { st with ctx := clearOutput tbi st.ctx }).1.outputRegs = [] := hadv.1.trans h1
  have ha2 : (advanceInputs C instr it entry
      { st with ctx := clearOutput tbi st.ctx }).1.outputFlags = none := hadv.2.1.trans h2
  have ha3 : (advanceInputs C instr it entry
      { st with ctx := clearOutput tbi st.ctx }).1.exceptionType = none :=
    hadv.2.2.trans h3
  simp only [searchBody]
  rcases hrun : C.run it (advanceInputs C instr it entry
      { st with ctx := clearOutput tbi st.ctx }).2.ctx with _ | ⟨ctx2, status⟩
  · simp
  · simp only
    have hcs := classifyStatus_shape instr tbi
      (advanceInputs C instr it entry { st with ctx := clearOutput tbi st.ctx }).1
      ctx2 status ha2 ha3
    constructor
    · intro hm
      have := hcs.1 hm
      rw [this]
      exact ⟨ha1, ha2, ha3⟩
    · intro hh
      have hhit := hcs.2 hh
      refine ⟨fun hsome => ?_, hhit.2⟩
      have := hhit.1 hsome
      exact ⟨this.1.trans ha1, this.2⟩

theorem searchLoop_hit_shape {γ : Type} (C : SearchConfig γ) (instr : Instr)
    (tbi : TestBitInfo) :
    ∀ (fuel it : Nat) (entry : TestCaseEntry) (st : SearchState γ) (e : TestCaseEntry),
      entry.outputRegs = [] → entry.outputFlags = none → entry.exceptionType = none →
      (searchLoop C instr tbi fuel it entry st).1 = SearchResult.hit e →
      ((e.exceptionType.isSome → e.outputRegs = [] ∧ e.outputFlags = none)
        ∧ (e.exceptionType = none →
            ((e.outputFlags.isSome ↔ getFlagsModified instr ≠ 0)
              ∧ ∀ f, e.outputFlags = some f → Nat.testBit f 9 = false))) := by
  intro fuel
  induction fuel with
  | zero =>
    intro it entry st e _ _ _ habs
    simp [searchLoop] at habs
  | succ f ih =>
    intro it entry st e h1 h2 h3 hres
    have hshape := searchBody_shape C instr tbi it entry st h1 h2 h3
    simp only [searchLoop] at hres
    rcases hout : (searchBody C instr tbi it entry st).1 with _ | _ | _ | _
    · rw [hout] at hres
      simp only at hres
      have he : (searchBody C instr tbi it entry st).2.1 = e := by
        simpa using hres
      rw [← he]
      exact hshape.2 hout
    · rw [hout] at hres
      simp only at hres
      have hmiss := hshape.1 hout
      exact ih (it + 1) _ _ e hmiss.1 hmiss.2.1 hmiss.2.2 (by simpa using hres)
    · rw [hout] at hres
      simp at hres
    · rw [hout] at hres
      simp at hres

theorem searchLoop_count_le {γ : Type} (C : SearchConfig γ) (instr : Instr)
    (tbi : TestBitInfo) :
    ∀ (fuel it : Nat) (entry : TestCaseEntry) (st : SearchState γ),
      (searchLoop C instr tbi fuel it entry st).2.1 ≤ fuel := by
  intro fuel
  induction fuel with
  | zero =>
    intro it entry st
    simp [searchLoop]
  | succ f ih =>
    intro it entry st
    simp only [searchLoop]
    rcases hout : (searchBody C instr tbi it entry st).1 with _ | _ | _ | _ <;>
      simp only
    · omega
    · have := ih (it + 1) (searchBody C instr tbi it entry st).2.1
        (searchBody C instr tbi it entry st).2.2
      omega
    · omega
    · omega

theorem searchLoop_all_miss {γ : Type} (C : SearchConfig γ) (instr : Instr)
    (tbi : TestBitInfo)
    (hmiss : ∀ (it : Nat) (entry : TestCaseEntry) (st : SearchState γ),
        (searchBody C instr tbi it entry st).1 = StepOutcome.miss) :
    ∀ (fuel it : Nat) (entry : TestCaseEntry) (st : SearchState γ),
      (searchLoop C instr tbi fuel it entry st).1 = SearchResult.exhausted
        ∧ (searchLoop C instr tbi fuel it entry st).2.1 = fuel := by
  intro fuel
  induction fuel with
  | zero =>
    intro it entry st
    simp [searchLoop]
  | succ f ih =>
    intro it entry st
    simp only [searchLoop]
    rw [hmiss it entry st]
    simp only
    have := ih (it + 1) (searchBody C instr tbi it entry st).2.1
      (searchBody C instr tbi it entry st).2.2
    exact ⟨this.1, by omega⟩

theorem processTargets_fold {γ : Type} (C : SearchConfig γ) (instr : Instr)
    (P : TestCaseEntry → Prop)
    (hP : ∀ (tbi : TestBitInfo) (st : SearchState γ) (e : TestCaseEntry),
        (searchTarget C instr tbi st).1 = SearchResult.hit e → P e) :
    ∀ (l : List TestBitInfo) (acc : InstrTestGroup × SearchState γ),
      (∀ e ∈ acc.1.entries, P e) →
      ∀ e ∈ (l.foldl (processTarget C instr) acc).1.entries, P e := by
  intro l
  induction l with
  | nil => exact fun acc hacc => hacc
  | cons tbi rest ih =>
    intro acc hacc
    rw [List.foldl_cons]
    apply ih
    intro e he
    by_cases hskip : acc.1.illegalInstruction ∨ acc.1.fatalError
    · rw [show processTarget C instr acc tbi = acc from by
        unfold processTarget
        rw [if_pos hskip]] at he
      exact hacc e he
    · simp only [processTarget] at he
      rw [if_neg hskip] at he
      rcases hres : (searchTarget C instr tbi
          { ctx := acc.2.ctx, gens := (C.mkGens instr acc.2.rndIdx).1,
            rndIdx := (C.mkGens instr acc.2.rndIdx).2 }).1 with e2 | _ | _ | _ <;>
        rw [hres] at he
      · simp only at he
        rcases List.mem_append.mp he with h | h
        · exact hacc e h
        · have : e = e2 := by simpa using h
          rw [this]
          exact hP tbi _ e2 hres
      · exact hacc e he
      · exact hacc e he
      · exact hacc e he

/-- Every entry a group collects satisfies the output-shape invariants: an
exception witness carries no captured outputs, and a successful entry has
output_flags exactly when the instruction modifies flags, with IF masked. -/
theorem testInstruction_entry_shape {γ : Type} (C : SearchConfig γ) (instr : Instr)
    (st0 : SearchState γ) :
    ∀ e ∈ (testInstruction C instr st0).1.entries,
      ((e.exceptionType.isSome → e.outputRegs = [] ∧ e.outputFlags = none)
        ∧ (e.exceptionType = none →
            ((e.outputFlags.isSome ↔ getFlagsModified instr ≠ 0)
              ∧ ∀ f, e.outputFlags = some f → Nat.testBit f 9 = false))) := by
  rw [testInstruction]
  refine processTargets_fold C instr
    (fun e => ((e.exceptionType.isSome → e.outputRegs = [] ∧ e.outputFlags = none)
      ∧ (e.exceptionType = none →
          ((e.outputFlags.isSome ↔ getFlagsModified instr ≠ 0)
            ∧ ∀ f, e.outputFlags = some f → Nat.testBit f 9 = false))))
    ?_ (generateTestMatrix instr) ({}, st0) (by simp)
  intro tbi st e hres
  exact searchLoop_hit_shape C instr tbi (maxAttemptsFor instr + 1) 0 {} st e
    rfl rfl rfl hres

/-- C9: any entry recorded as an exception witness (exceptionType present)
has empty output_regs and absent output_flags; register and flag outputs are
only captured by checkOutputs, which runs only on a successful execution of a
target whose expected exception is None. -/
theorem exception_entries_no_outputs {γ : Type} (C : SearchConfig γ) (instr : Instr)
    (st0 : SearchState γ) (e : TestCaseEntry)
    (he : e ∈ (testInstruction C instr st0).1.entries)
    (hexc : e.exceptionType.isSome) :
    e.outputRegs = [] ∧ e.outputFlags = none :=
  (testInstruction_entry_shape C instr st0 e he).1 hexc

/-- C9 witness: with a sandbox that always reports an unclassified failure
status, the single set_0 flag target of set0Instr is recorded as an exception
witness with empty outputs. -/
theorem exception_entries_no_outputs_witness :
    (⟨[], none, [], none, some ExceptionType.None⟩ : TestCaseEntry)
        ∈ (testInstruction otherFailCfg set0Instr st0).1.entries
      ∧ (⟨[], none, [], none, some ExceptionType.None⟩ : TestCaseEntry).outputRegs = []
      ∧ (⟨[], none, [], none, some ExceptionType.None⟩ : TestCaseEntry).outputFlags
        = none := by
  have hmem : (⟨[], none, [], none, some ExceptionType.None⟩ : TestCaseEntry)
      ∈ (testInstruction otherFailCfg set0Instr st0).1.entries := by decide
  have h := exception_entries_no_outputs otherFailCfg set0Instr st0 _ hmem (by decide)
  exact ⟨hmem, h⟩

/-- C2 counterexample: a DIV form whose matrix is exactly the two exception
targets, on a decoder record whose modified-flags mask is nonzero.  Both
recorded entries are exception witnesses with output_flags absent, violating
the claimed equivalence between the presence of output_flags and a nonzero
modified mask. -/
theorem outputFlags_iff_cex :
    getFlagsModified cexDivInstr ≠ 0
      ∧ ((testInstruction cexDivCfg cexDivInstr st0).1.entries.map
          (fun e => (e.exceptionType, e.outputFlags)))
        = [(some ExceptionType.DivideError, none),
            (some ExceptionType.IntegerOverflow, none)] := by
  constructor
  · decide
  · decide

/-- C2 amended: for every entry pushed into a group, if the entry is not an
exception witness then output_flags is present exactly when the modified
mask is nonzero and any present value has the IF bit at 0; an exception
witness always has output_flags absent, whatever the modified mask. -/
theorem outputFlags_amended {γ : Type} (C : SearchConfig γ) (instr : Instr)
    (st0 : SearchState γ) (e : TestCaseEntry)
    (he : e ∈ (testInstruction C instr st0).1.entries) :
    (e.exceptionType = none →
        ((e.outputFlags.isSome ↔ getFlagsModified instr ≠ 0)
          ∧ ∀ f, e.outputFlags = some f → Nat.testBit f 9 = false))
      ∧ (e.exceptionType.isSome → e.outputFlags = none) := by
  have h := testInstruction_entry_shape C instr st0 e he
  exact ⟨h.2, fun hsome => (h.1 hsome).2⟩

/-- C2 amended witness: a successful run of an instruction with no modified
flags records an entry with no exception and absent output_flags. -/
theorem outputFlags_amended_witness :
    (⟨[], none, [], none, none⟩ : TestCaseEntry)
        ∈ (testInstruction successCfg set0Instr st0).1.entries
      ∧ ((⟨[], none, [], none, none⟩ : TestCaseEntry).outputFlags.isSome
          ↔ getFlagsModified set0Instr ≠ 0) := by
  have hmem : (⟨[], none, [], none, none⟩ : TestCaseEntry)
      ∈ (testInstruction successCfg set0Instr st0).1.entries := by decide
  have h := (outputFlags_amended successCfg set0Instr st0 _ hmem).1 (by decide)
  exact ⟨hmem, h.1⟩

theorem searchBody_divPlain_miss (it : Nat) (entry : TestCaseEntry)
    (st : SearchState Unit) :
    (searchBody successCfg cexDivPlain tbiDiv it entry st).1 = StepOutcome.miss := by
  simp [searchBody, successCfg, classifyStatus, tbiDiv]

/-- C6 counterexample: the iteration counter is incremented after the body
and compared with a strict inequality, so a target that never hits runs the
body kAbortTestCaseThreshold + 1 = 100001 times.  Concretely, the
divide-error target of a bare DIV (a member of its test matrix), under a
sandbox whose executions always succeed, is attempted 100001 times before
the budget check fires. -/
theorem retry_budget_cex :
    tbiDiv ∈ generateTestMatrix cexDivPlain
      ∧ maxAttemptsFor cexDivPlain = 100000
      ∧ (searchTarget successCfg cexDivPlain tbiDiv st0).2.1 = 100001 := by
  refine ⟨by decide, by decide, ?_⟩
  rw [searchTarget]
  have h := searchLoop_all_miss successCfg cexDivPlain tbiDiv
    searchBody_divPlain_miss (maxAttemptsFor cexDivPlain + 1) 0 {} st0
  rw [h.2]
  decide

/-- C6 amended: the retry loop runs at most threshold + 1 attempts, where
the threshold is 100000, reduced to 33333 when any input is an immediate;
and a target that exhausts the budget contributes no entry to the group. -/
theorem retry_budget_amended {γ : Type} (C : SearchConfig γ) (instr : Instr)
    (tbi : TestBitInfo) (st : SearchState γ) (acc : InstrTestGroup × SearchState γ)
    (hskip : ¬(acc.1.illegalInstruction ∨ acc.1.fatalError))
    (hex : (searchTarget C instr tbi
        { ctx := acc.2.ctx, gens := (C.mkGens instr acc.2.rndIdx).1,
          rndIdx := (C.mkGens instr acc.2.rndIdx).2 }).1 = SearchResult.exhausted) :
    (searchTarget C instr tbi st).2.1
        ≤ (if isInputFromImmediate instr then 33333 else 100000) + 1
      ∧ (processTarget C instr acc tbi).1.entries = acc.1.entries := by
  constructor
  · have h := searchLoop_count_le C instr tbi (maxAttemptsFor instr + 1) 0 {} st
    rw [searchTarget]
    refine le_trans h ?_
    by_cases hi : isInputFromImmediate instr <;>
      simp [maxAttemptsFor, kAbortTestCaseThreshold, hi]
  · simp only [processTarget]
    rw [if_neg hskip, hex]

/-- C6 amended witness: the always-successful sandbox exhausts the
divide-error target of a bare DIV within the budget bound and records no
entry for it. -/
theorem retry_budget_amended_witness :
    ¬((({} : InstrTestGroup), st0).1.illegalInstruction
        ∨ (({} : InstrTestGroup), st0).1.fatalError)
      ∧ (searchTarget successCfg cexDivPlain tbiDiv st0).2.1
          ≤ (if isInputFromImmediate cexDivPlain then 33333 else 100000) + 1
      ∧ (processTarget successCfg cexDivPlain ({}, st0) tbiDiv).1.entries
          = (({} : InstrTestGroup), st0).1.entries := by
  have hex : (searchTarget successCfg cexDivPlain tbiDiv
      { ctx := (({} : InstrTestGroup), st0).2.ctx,
        gens := (successCfg.mkGens cexDivPlain (({} : InstrTestGroup), st0).2.rndIdx).1,
        rndIdx := (successCfg.mkGens cexDivPlain
          (({} : InstrTestGroup), st0).2.rndIdx).2 }).1
      = SearchResult.exhausted := by
    rw [searchTarget]
    exact (searchLoop_all_miss successCfg cexDivPlain tbiDiv
      searchBody_divPlain_miss (maxAttemptsFor cexDivPlain + 1) 0 {} _).1
  have h := retry_budget_amended successCfg cexDivPlain tbiDiv st0
    (({} : InstrTestGroup), st0) (by decide) hex
  exact ⟨by decide, h⟩

end X86Tester
